import Mathlib

/-!
Verification of the Audit-Flow-Engine document-structure extraction engine
(`backend/app/services/pdf_service.py` and `backend/app/utils/validation_utils.py`).

Shallow embedding conventions:
* Python strings are Lean `String`s (Lean 4.14 strings are `List Char` under the
  hood, matching Python's sequence-of-code-points model for the characters used
  here).
* Python floats are modelled as exact rationals (`ℚ`).  `float(s)` is embedded
  as `pyFloatQ`, a parser for the decimal-literal subset actually reachable in
  this code base (optional sign, digits, optional fraction part, optional
  exponent; the `inf`/`nan`/underscore forms of CPython's `float` are never
  produced by the program's tokens).  `str(float(s))` is embedded as `ratRepr`,
  which prints the exact decimal expansion — this agrees with CPython for the
  decimal-exact values the program manipulates.
* Single-character `str.replace` calls are embedded as character map/filter,
  which is exactly what they do.
* The external collaborators (pdfplumber, pytesseract, pdf2image, the file
  system cache) are the input boundary: their outputs (tables of cells, OCR
  word boxes, page text, a cached result) are parameters of the embedded
  functions.  Everything the repository computes from those inputs is embedded.
-/

namespace AuditFlow

/- The core arithmetic of `Rat` and `Nat.gcd` is `@[irreducible]`, which
blocks elaborator-side evaluation in `decide` (the kernel is unaffected);
make them semireducible inside this block. -/
unseal Rat.add Rat.sub Rat.mul Rat.inv Nat.gcd

/-! ## Python string primitives -/

/-- Python whitespace (the class matched by `\s` / stripped by `str.strip()`). -/
def isPyWS (c : Char) : Bool :=
  c == ' ' || c == '\t' || c == '\n' || c == '\r' || c == '\x0b' || c == '\x0c'

/-- ASCII digit test (`\d` on the ASCII tokens handled here). -/
def isDig (c : Char) : Bool := '0' ≤ c && c ≤ '9'

/-- ASCII letter test (`[a-zA-Z]`). -/
def isAsciiAlpha (c : Char) : Bool :=
  ('a' ≤ c && c ≤ 'z') || ('A' ≤ c && c ≤ 'Z')

/-- Drop matching characters from the end of a list. -/
def dropWhileEnd (p : Char → Bool) (l : List Char) : List Char :=
  (l.reverse.dropWhile p).reverse

/-- Python `str.strip()` (no arguments): remove whitespace from both ends. -/
def pyStrip (s : String) : String :=
  ⟨dropWhileEnd isPyWS (s.data.dropWhile isPyWS)⟩

/-- Collapse every second space of an adjacent pair (helper of `collapseWS`). -/
def squeezeSpaces : List Char → List Char
  | [] => []
  | [c] => [c]
  | a :: b :: rest =>
    if a == ' ' && b == ' ' then squeezeSpaces (b :: rest)
    else a :: squeezeSpaces (b :: rest)

/-- Python `re.sub(r'\s+', ' ', s)`: every run of whitespace becomes one space. -/
def collapseWS (s : String) : String :=
  ⟨squeezeSpaces (s.data.map (fun c => if isPyWS c then ' ' else c))⟩

/-- ASCII lower-casing, the effect of Python `str.lower()` on the ASCII
letters occurring in this code base (non-ASCII symbols are unaffected in both). -/
def asciiLower (s : String) : String := ⟨s.data.map Char.toLower⟩

/-- Python `s.replace(a, b)` for one-character `a`, `b`. -/
def chReplace (a b : Char) (s : String) : String :=
  ⟨s.data.map (fun c => if c == a then b else c)⟩

/-- Python `s.replace(a, '')` for a one-character `a`. -/
def chRemove (a : Char) (s : String) : String :=
  ⟨s.data.filter (fun c => c != a)⟩

/-- Python `s.startswith(c)` for a one-character prefix. -/
def headIs (s : String) (c : Char) : Bool := s.data.head? == some c

/-- Python `s.endswith(c)` for a one-character suffix. -/
def lastIs (s : String) (c : Char) : Bool := s.data.getLast? == some c

/-- Python `s[1:-1]`. -/
def stripEnds (s : String) : String := ⟨(s.data.drop 1).dropLast⟩

/-- Is the first list a prefix of the second? -/
def listPre (n h : List Char) : Bool :=
  match n, h with
  | [], _ => true
  | _ :: _, [] => false
  | a :: n', b :: h' => a == b && listPre n' h'

/-- Is the first list a contiguous sublist of the second? -/
def listInfix (n : List Char) : List Char → Bool
  | [] => n.isEmpty
  | c :: rest => listPre n (c :: rest) || listInfix n rest

/-- Python `needle in hay` on strings. -/
def pyIn (needle hay : String) : Bool := listInfix needle.data hay.data

/-! ## `float(...)` as an exact rational -/

/-- Numeric value of a digit string (most significant first). -/
def digitsToNat (l : List Char) : Nat :=
  l.foldl (fun n c => 10 * n + (c.toNat - 48)) 0

/-- Optional exponent suffix of a float literal (`e`/`E`, sign, digits). -/
def parseExp (base : ℚ) (cs : List Char) : Option ℚ :=
  match cs with
  | [] => some base
  | e :: rest =>
    if e == 'e' || e == 'E' then
      match rest with
      | '+' :: r =>
        let ds := r.takeWhile isDig
        if ds.isEmpty || !(r.dropWhile isDig).isEmpty then none
        else some (base * (10 : ℚ) ^ ((digitsToNat ds : ℤ)))
      | '-' :: r =>
        let ds := r.takeWhile isDig
        if ds.isEmpty || !(r.dropWhile isDig).isEmpty then none
        else some (base * (10 : ℚ) ^ (-(digitsToNat ds : ℤ)))
      | r =>
        let ds := r.takeWhile isDig
        if ds.isEmpty || !(r.dropWhile isDig).isEmpty then none
        else some (base * (10 : ℚ) ^ ((digitsToNat ds : ℤ)))
    else none

/-- Unsigned float literal: digits, optional `.` and fraction digits, optional
exponent.  At least one digit must be present (CPython's grammar). -/
def parseMantissa (cs : List Char) : Option ℚ :=
  let ip := cs.takeWhile isDig
  match cs.dropWhile isDig with
  | '.' :: rest2 =>
    let fp := rest2.takeWhile isDig
    let rest3 := rest2.dropWhile isDig
    if ip.isEmpty && fp.isEmpty then none
    else parseExp ((digitsToNat ip : ℚ) + (digitsToNat fp : ℚ) / (10 : ℚ) ^ fp.length) rest3
  | rest => if ip.isEmpty then none else parseExp (digitsToNat ip : ℚ) rest

/-- Embeds Python `float(s)` on the decimal-literal strings this program feeds
it, returning the exact rational value (`none` models `ValueError`). -/
def pyFloatQ (s : String) : Option ℚ :=
  match (pyStrip s).data with
  | [] => none
  | c :: rest =>
    if c == '+' then parseMantissa rest
    else if c == '-' then (parseMantissa rest).map (fun q => -q)
    else parseMantissa (c :: rest)

/-- Digits of a natural number, most significant first (with enough fuel). -/
def natDigitsAux : Nat → Nat → List Char
  | _, 0 => []
  | n, Nat.succ fuel =>
    if n < 10 then [Char.ofNat (48 + n)]
    else natDigitsAux (n / 10) fuel ++ [Char.ofNat (48 + n % 10)]

/-- Decimal digit characters of a natural number. -/
def natDigitChars (n : Nat) : List Char := natDigitsAux n (n + 1)

/-- Decimal expansion of a rational in `[0, 1)`, bounded fuel. -/
def fracDigits : ℚ → Nat → List Char
  | _, 0 => []
  | q, Nat.succ fuel =>
    if q = 0 then []
    else
      let q10 := q * 10
      let d := q10.floor
      Char.ofNat (48 + d.toNat) :: fracDigits (q10 - (d : ℚ)) fuel

/-- Embeds Python `str(float(x))` for the decimal-exact values produced here:
sign, integer part, `.`, fractional digits (`"100.0"`, `"-1.5"`, ...). -/
def ratRepr (q : ℚ) : String :=
  let n := if q < 0 then -q else q
  let ip := n.floor.toNat
  let fr := n - (n.floor : ℚ)
  let frDs := fracDigits fr 40
  let ds := natDigitChars ip ++ '.' :: (if frDs.isEmpty then ['0'] else frDs)
  ⟨if q < 0 then '-' :: ds else ds⟩

/-! ## A small regular-expression engine

The heuristic filters of `pdf_service.py` are compiled regexes; they are
embedded as values of the `RE` type below and executed with Antimirov partial
derivatives.  Python's `re.search(p, s)` (an unanchored pattern `p` matching
some substring) is embedded by matching the wrapped pattern `Σ* p Σ*` against
the whole string; `^`-anchored patterns are wrapped as `p Σ*`, and patterns
anchored on both sides are matched exactly.  The strings searched here never
contain a newline once cleaned, so `$` means end-of-string. -/

inductive RE : Type where
  | zero : RE
  | eps : RE
  | cls : List (Char × Char) → Bool → RE
  | seq : RE → RE → RE
  | alt : RE → RE → RE
  | star : RE → RE
deriving BEq, Repr

/-- Does character `c` fall in the class (list of inclusive ranges, possibly
negated)? -/
def clsMatch (rs : List (Char × Char)) (neg : Bool) (c : Char) : Bool :=
  let inC := rs.any (fun p => decide (p.1 ≤ c) && decide (c ≤ p.2))
  if neg then !inC else inC

/-- Can the expression match the empty string? -/
def RE.nullable : RE → Bool
  | .zero => false
  | .eps => true
  | .cls _ _ => false
  | .seq a b => a.nullable && b.nullable
  | .alt a b => a.nullable || b.nullable
  | .star _ => true

/-- Sequencing smart constructor. -/
def mkSeq : RE → RE → RE
  | .zero, _ => .zero
  | .eps, b => b
  | a, b =>
    match b with
    | .zero => .zero
    | .eps => a
    | _ => .seq a b

/-- Antimirov partial derivative: the set of continuations after reading `c`. -/
def RE.pderiv : RE → Char → List RE
  | .zero, _ => []
  | .eps, _ => []
  | .cls rs n, c => if clsMatch rs n c then [.eps] else []
  | .seq a b, c =>
    ((a.pderiv c).map (fun a' => mkSeq a' b)) ++ (if a.nullable then b.pderiv c else [])
  | .alt a b, c => a.pderiv c ++ b.pderiv c
  | .star a, c => (a.pderiv c).map (fun a' => mkSeq a' (.star a))

/-- One step of the derivative automaton on a set of expressions. -/
def stepSet (S : List RE) (c : Char) : List RE :=
  (S.flatMap (fun r => r.pderiv c)).eraseDups

/-- Does `r` match the whole character list? -/
def reRun (r : RE) (cs : List Char) : Bool :=
  ((cs.foldl stepSet [r]).any RE.nullable)

/-- Full (anchored on both sides) match against a string. -/
def reFull (r : RE) (s : String) : Bool := reRun r s.data

/-- Character class holding a single character. -/
def chrRE (c : Char) : RE := .cls [(c, c)] false

/-- A character class from explicit members. -/
def oneOf (cs : List Char) : RE := .cls (cs.map (fun c => (c, c))) false

/-- Case-insensitive single letter (used for `re.IGNORECASE` patterns). -/
def ciChr (c : Char) : RE :=
  if isAsciiAlpha c then .cls [(c.toLower, c.toLower), (c.toUpper, c.toUpper)] false
  else chrRE c

/-- Literal string pattern. -/
def strRE (s : String) : RE := s.data.foldr (fun c r => mkSeq (chrRE c) r) .eps

/-- Case-insensitive literal string pattern. -/
def ciStr (s : String) : RE := s.data.foldr (fun c r => mkSeq (ciChr c) r) .eps

/-- The pattern for a dot: any character except newline. -/
def dotRE : RE := .cls [('\n', '\n')] true

/-- Any character at all (used to wrap unanchored searches). -/
def anyRE : RE := .cls [] true

/-- The whitespace class of `\s`. -/
def wsRE : RE :=
  .cls [(' ', ' '), ('\t', '\t'), ('\n', '\n'), ('\r', '\r'), ('\x0b', '\x0b'), ('\x0c', '\x0c')] false

/-- The digit class of `\d`. -/
def digRE : RE := .cls [('0', '9')] false

/-- The word-character class of `\w`. -/
def wordRE : RE := .cls [('a', 'z'), ('A', 'Z'), ('0', '9'), ('_', '_')] false

/-- Zero-or-one repetition. -/
def optRE (r : RE) : RE := .alt .eps r

/-- One-or-more repetition. -/
def plusRE (r : RE) : RE := mkSeq r (.star r)

/-- Kleene star alias. -/
def starRE (r : RE) : RE := .star r

/-- Alternation of a list of patterns. -/
def altL : List RE → RE
  | [] => .zero
  | [r] => r
  | r :: rest => .alt r (altL rest)

/-- Sequencing of a list of patterns. -/
def seqL : List RE → RE
  | [] => .eps
  | [r] => r
  | r :: rest => mkSeq r (seqL rest)

/-- Any string of characters. -/
def anyStar : RE := .star anyRE

/-- Wrap a pattern for `re.search`: some substring matches. -/
def searchWrap (r : RE) : RE := seqL [anyStar, r, anyStar]

/-- Wrap a `^`-anchored pattern for `re.search`: some prefix matches. -/
def preWrap (r : RE) : RE := mkSeq r anyStar

/-- Embeds `rx.search(s) is not None` for a core (unanchored) pattern. -/
def reSearch (r : RE) (s : String) : Bool := reFull (searchWrap r) s

/-! ## Numeric token parsers of `pdf_service.py` / `validation_utils.py` -/

/-- Embeds `_NOTE_RE.match(s)` for `_NOTE_RE = r'^\d+\.\d+$'`: a bare
"N.N" note-reference shaped token. -/
def noteMatch (s : String) : Bool :=
  let d1 := s.data.takeWhile isDig
  match s.data.dropWhile isDig with
  | c :: d2 => c == '.' && (!d1.isEmpty && (!d2.isEmpty && d2.all isDig))
  | [] => false

/-- A digit-or-dot character (every character of a note-shaped token). -/
def digDot (c : Char) : Prop := isDig c = true ∨ c = '.'

/-- The value `float` computes for a note-shaped token `d1.d2`. -/
def noteVal (d1 d2 : List Char) : ℚ :=
  (digitsToNat d1 : ℚ) + (digitsToNat d2 : ℚ) / (10 : ℚ) ^ d2.length

/-- Embeds `_is_num` of `pdf_service.py`. -/
def isNum (text : String) : Bool :=
  let s := pyStrip (chRemove ' ' (chRemove ',' text))
  let s := if headIs s '(' && lastIs s ')' then stripEnds s else s
  if s == "" then false
  else
    match pyFloatQ s with
    | some v => !(noteMatch s && |v| < 20)
    | none => false

/-- Embeds `_to_num` of `pdf_service.py`. -/
def toNum (text : String) : Option ℚ :=
  let s := pyStrip (chRemove ',' text)
  if headIs s '(' && lastIs s ')' then
    match pyFloatQ (stripEnds s) with
    | some v => some (-|v|)
    | none => none
  else
    match pyFloatQ s with
    | some v => if noteMatch s && |v| < 20 then none else some v
    | none => none

/-- The sentinel cell strings `_clean_cell` maps to the empty string. -/
def dashSet : List String := ["-", "–", "—", "_", "...", "NA", "N.A."]

/-- Embeds `_clean_cell` of `pdf_service.py` (argument `none` models `None`). -/
def cleanCell (v : Option String) : String :=
  match v with
  | none => ""
  | some val =>
    let s := pyStrip (collapseWS (chReplace '\n' ' ' val))
    if dashSet.contains s then "" else s

/-- The character class `[₹$£€\s]` stripped from the front by `_to_float_str`. -/
def isCurrencyOrWS (c : Char) : Bool :=
  c == '₹' || c == '$' || c == '£' || c == '€' || isPyWS c

/-- The cleaning prefix of `_to_float_str`: clean the cell, drop commas,
strip leading currency/whitespace characters, and rewrite the accounting
parenthesis notation `(x)` to `-x`. -/
def toFloatStrPre (raw : String) : String :=
  let s := pyStrip (chRemove ',' (cleanCell (some raw)))
  let s := pyStrip ⟨s.data.dropWhile isCurrencyOrWS⟩
  if headIs s '(' && lastIs s ')' then "-" ++ stripEnds s else s

/-- Embeds `_to_float_str` of `pdf_service.py` (`toFloatStrPre` performs the
cleaning steps of its first three lines). -/
def toFloatStr (raw : String) : String :=
  let s := toFloatStrPre raw
  let noteCut :=
    if noteMatch s then
      match pyFloatQ s with
      | some v => |v| < 20
      | none => false
    else false
  if noteCut then ""
  else
    match pyFloatQ s with
    | some v => ratRepr v
    | none => ""

/-- The class `[a-zA-Z\s]` stripped from both ends by `parse_number`. -/
def isAlphaOrWS (c : Char) : Bool := isAsciiAlpha c || isPyWS c

/-- The currency symbols `[₹$€£¥]` removed by `parse_number`. -/
def isCurrencySym (c : Char) : Bool :=
  c == '₹' || c == '$' || c == '€' || c == '£' || c == '¥'

/-! ## Pattern tables of `pdf_service.py`

Each `_NOISE_PATTERNS` entry is stored in its `re.search`-ready form: a
pattern with no `^` is wrapped `Σ* p Σ*`, a `^`-anchored pattern is wrapped
`p Σ*`, and a `^...$` pattern is kept exact, so that `reFull entry s` equals
`rx.search(s) is not None`.  All are compiled with `re.IGNORECASE` in the
source, hence the case-insensitive literals. -/

/-- The class `[\s\.\:]`. -/
def wsDotColon : RE :=
  .cls [(' ', ' '), ('\t', '\t'), ('\n', '\n'), ('\r', '\r'), ('\x0b', '\x0b'),
        ('\x0c', '\x0c'), ('.', '.'), (':', ':')] false

/-- The class `[\|\!\[\]_]`. -/
def pipeBangCls : RE := oneOf ['|', '!', '[', ']', '_']

/-- The class `[ivxlVIXL\s\|_]`. -/
def romanWsCls : RE :=
  .cls [('i', 'i'), ('v', 'v'), ('x', 'x'), ('l', 'l'), ('I', 'I'), ('V', 'V'),
        ('X', 'X'), ('L', 'L'), (' ', ' '), ('\t', '\t'), ('\n', '\n'), ('\r', '\r'),
        ('\x0b', '\x0b'), ('\x0c', '\x0c'), ('|', '|'), ('_', '_')] false

/-- Letters, as the class pattern of `[a-zA-Z]`. -/
def alphaRE : RE := .cls [('a', 'z'), ('A', 'Z')] false

/-- The apostrophe character (code point 39). -/
def apos : Char := Char.ofNat 39

/-- Embeds `_NOISE_PATTERNS`/`_NOISE_RE` of `pdf_service.py` (in order). -/
def noiseREs : List RE := [
  preWrap (seqL [plusRE digRE, chrRE ')', wsRE]),
  preWrap (seqL [ciStr "note", starRE wsRE, digRE]),
  searchWrap (ciStr "as per the actuarial"),
  searchWrap (ciStr "scheme of arrangement"),
  searchWrap (ciStr "pursuant to the nclt"),
  searchWrap (ciStr "the excess of consideration"),
  searchWrap (ciStr "has been accounted"),
  searchWrap (seqL [ciStr "discontinued operation", starRE dotRE, ciStr "separately"]),
  searchWrap (seqL [ciStr "difference of", starRE dotRE, ciStr "securities premium"]),
  searchWrap (seqL [ciStr "ordinary shares", starRE dotRE, ciStr "yet to be transferred"]),
  searchWrap (seqL [ciStr "working capital", starRE dotRE, ciStr "current assets",
    starRE dotRE, ciStr "excluding"]),
  searchWrap (ciStr "trade and other receivables includes"),
  searchWrap (ciStr "raw material consumed includes"),
  searchWrap (ciStr "(ii) equity = equity attributable"),
  searchWrap (ciStr "net worth as defined"),
  preWrap (seqL [starRE wsRE, altL [ciStr "page", ciStr "pg"], wsDotColon,
    starRE wsRE, plusRE digRE]),
  preWrap (seqL [starRE wsRE, ciStr "cin", starRE wsRE, oneOf [':', '-']]),
  preWrap (seqL [starRE wsRE, altL [ciStr "www.", ciStr "http"]]),
  preWrap (seqL [starRE wsRE, ciStr "regd.", starRE wsRE, ciStr "office"]),
  preWrap (seqL [starRE wsRE, ciStr "telephone"]),
  preWrap (seqL [starRE wsRE, ciStr "email"]),
  preWrap (seqL [starRE wsRE, pipeBangCls, pipeBangCls, starRE pipeBangCls]),
  searchWrap (seqL [chrRE '|', starRE wsRE, alphaRE, starRE wsRE, chrRE '|']),
  preWrap (seqL [chrRE '|', starRE wsRE, alphaRE, starRE wsRE, chrRE '|']),
  seqL [romanWsCls, romanWsCls, romanWsCls, starRE romanWsCls],
  searchWrap (seqL [ciStr "regd", optRE (chrRE '.'), starRE wsRE, ciStr "office"]),
  searchWrap (seqL [ciStr "bombay", starRE wsRE, ciStr "house"]),
  searchWrap (seqL [ciStr "homi", starRE wsRE, ciStr "mody"]),
  searchWrap (seqL [ciStr "cin", starRE wsRE, oneOf ['l', 'L'], digRE]),
  searchWrap (seqL [ciStr "not", plusRE wsRE, ciStr "annualised"]),
  searchWrap (seqL [ciStr "refer", plusRE wsRE, ciStr "note", plusRE wsRE, digRE]),
  preWrap (seqL [starRE wsRE, chrRE '*', starRE wsRE, ciStr "re", optRE (chrRE '-'),
    ciStr "presented"]),
  searchWrap (seqL [ciStr "face", plusRE wsRE, ciStr "value", plusRE wsRE, ciStr "of",
    plusRE wsRE, chrRE '₹']),
  searchWrap (seqL [ciStr "audited", starRE wsRE, ciStr "[refer"]),
  searchWrap (ciStr "unaudited"),
  preWrap (seqL [ciStr "on", plusRE wsRE, ciStr "november", plusRE wsRE, digRE]),
  preWrap (seqL [ciStr "the", plusRE wsRE, altL [ciStr "board", ciStr "parties",
    ciStr "company", ciStr "statutory", ciStr "nclt"]]),
  preWrap (seqL [ciStr "further,", plusRE wsRE, ciStr "the"]),
  preWrap (seqL [digRE, digRE, digRE, chrRE ',', digRE, digRE, digRE, plusRE wsRE,
    ciStr "new", plusRE wsRE, ciStr "ordinary"]),
  searchWrap (ciStr "shareholders."),
  searchWrap (seqL [ciStr "pension", plusRE wsRE, ciStr "fund"]),
  searchWrap (ciStr "epfo"),
  searchWrap (seqL [ciStr "hon", chrRE apos, ciStr "ble", plusRE wsRE, ciStr "supreme",
    plusRE wsRE, ciStr "court"]),
  preWrap (seqL [chrRE '[', ciStr "equity", plusRE wsRE, ciStr "share", plusRE wsRE,
    ciStr "capital"]),
  preWrap (seqL [chrRE '[', ciStr "current", plusRE wsRE,
    altL [ciStr "assets", ciStr "liabilities"]]),
  searchWrap (seqL [ciStr "accrued", plusRE wsRE, ciStr "on", plusRE wsRE, ciStr "borrowings"]),
  searchWrap (seqL [ciStr "tive", plusRE wsRE, ciStr "debts", plusRE wsRE, ciStr "to",
    plusRE wsRE, ciStr "total"]),
  searchWrap (seqL [ciStr "turnover", plusRE wsRE, ciStr "(number", plusRE wsRE, ciStr "of",
    plusRE wsRE, ciStr "times)"]),
  searchWrap (seqL [ciStr "inventories", starRE dotRE, ciStr "gains", starRE dotRE,
    ciStr "loss"]),
  searchWrap (ciStr "incentives))"),
  preWrap (seqL [chrRE '[', ciStr "profit", plusRE wsRE, ciStr "for"]),
  searchWrap (seqL [ciStr "assets", plusRE wsRE, ciStr "under", plusRE wsRE,
    ciStr "development"]),
  searchWrap (seqL [ciStr "acquisition", starRE dotRE, ciStr "demerger"]),
  searchWrap (seqL [ciStr "normal", plusRE wsRE, ciStr "pension", plusRE wsRE,
    ciStr "valuation"]),
  searchWrap (seqL [ciStr "members", starRE dotRE, ciStr "data", starRE dotRE, ciStr "epfo"]),
  searchWrap (seqL [ciStr "overrides", plusRE wsRE, ciStr "the", plusRE wsRE,
    ciStr "requirement"]),
  searchWrap (seqL [ciStr "comparative", plusRE wsRE, ciStr "consolidated", plusRE wsRE,
    ciStr "results"]),
  searchWrap (seqL [ciStr "segment", plusRE wsRE, altL [ciStr "assets", ciStr "liabilities",
    ciStr "results", ciStr "revenue"]]),
  searchWrap (seqL [ciStr "net", plusRE wsRE, ciStr "segment"]),
  searchWrap (seqL [ciStr "unallocable", plusRE wsRE, altL [ciStr "assets",
    ciStr "liabilities"]]),
  searchWrap (seqL [ciStr "commercial", plusRE wsRE, ciStr "vehicle"]),
  searchWrap (seqL [ciStr "jaguar", plusRE wsRE, ciStr "and", plusRE wsRE, ciStr "land",
    plusRE wsRE, ciStr "rover"]),
  searchWrap (seqL [ciStr "intra", plusRE wsRE, ciStr "segment"]),
  searchWrap (seqL [ciStr "inter", plusRE wsRE, ciStr "segment"]),
  searchWrap (seqL [ciStr "debt", plusRE wsRE, ciStr "equity", plusRE wsRE, ciStr "ratio"]),
  searchWrap (seqL [ciStr "vehicle", plusRE wsRE, ciStr "financing"]),
  searchWrap (ciStr "corporate/unallocable")]

/-- Embeds `_DATE_RE` (core pattern, used via `.search`). -/
def dateRE : RE :=
  altL [ciStr "January", ciStr "February", ciStr "March", ciStr "April", ciStr "May",
    ciStr "June", ciStr "July", ciStr "August", ciStr "September", ciStr "October",
    ciStr "November", ciStr "December", ciStr "Jan", ciStr "Feb", ciStr "Mar",
    ciStr "Apr", ciStr "Jun", ciStr "Jul", ciStr "Aug", ciStr "Sep", ciStr "Oct",
    ciStr "Nov", ciStr "Dec",
    seqL [ciChr 'Q', .cls [('1', '4')] false, starRE wsRE, optRE (ciStr "FY"),
      starRE wsRE, digRE, digRE, optRE digRE, optRE digRE],
    seqL [ciChr 'H', .cls [('1', '2')] false, starRE wsRE, optRE (ciStr "FY"),
      starRE wsRE, digRE, digRE, optRE digRE, optRE digRE],
    seqL [ciStr "FY", starRE wsRE, digRE, digRE, optRE digRE, optRE digRE],
    seqL [strRE "20", digRE, digRE, oneOf ['-', '/'], digRE, digRE],
    seqL [strRE "20", digRE, digRE]]

/-- Embeds `_HDR_UNIT_RE` with its trailing `.*$` removed; `_clean_header`'s
substitution is applied through `subEndAnchored` below, which accounts for the
end anchor. -/
def hdrUnitRE : RE :=
  seqL [starRE wsRE, oneOf ['(', '['], starRE dotRE,
    altL [ciStr "cr", ciStr "crore", ciStr "lakh", ciStr "million", ciStr "usd",
      ciStr "inr", chrRE '₹', chrRE '■', ciChr 'n'],
    starRE wordRE, starRE dotRE, oneOf [')', ']'], starRE dotRE]

/-- Embeds `_UNIT_PATTERNS` of `pdf_service.py` (pattern, unit label), with
each pattern in `re.search`-ready form.  `\b` boundaries are encoded as
"start of string or a preceding non-word character" (and dually at the end). -/
def unitPatterns : List (RE × String) :=
  let nonWord : RE := .cls [('a', 'z'), ('A', 'Z'), ('0', '9'), ('_', '_')] true
  let wb (core : RE) : RE :=
    .alt (mkSeq core anyStar) (seqL [anyStar, nonWord, core, anyStar])
  let wb2 (core : RE) : RE :=
    let post : RE := .alt .eps (mkSeq nonWord anyStar)
    .alt (mkSeq core post) (seqL [anyStar, nonWord, core, post])
  [ (searchWrap (seqL [chrRE '₹', starRE wsRE, ciStr "in", starRE wsRE, ciStr "crore"]),
      "₹ in Crores"),
    (searchWrap (seqL [ciStr "rs", optRE (chrRE '.'), starRE wsRE, ciStr "in",
      starRE wsRE, ciStr "crore"]), "₹ in Crores"),
    (searchWrap (seqL [ciStr "rupee", optRE (ciChr 's'), starRE wsRE, ciStr "in",
      starRE wsRE, ciStr "crore"]), "₹ in Crores"),
    (wb (ciStr "crore"), "₹ in Crores"),
    (searchWrap (seqL [chrRE '₹', starRE wsRE, ciStr "in", starRE wsRE, ciStr "lakh"]),
      "₹ in Lakhs"),
    (wb2 (seqL [ciStr "lakh", optRE (ciChr 's')]), "₹ in Lakhs"),
    (searchWrap (seqL [ciStr "usd", starRE wsRE, optRE (seqL [ciStr "in", starRE wsRE]),
      ciStr "million"]), "USD in Millions"),
    (searchWrap (seqL [chrRE '$', starRE wsRE, ciStr "million"]), "USD in Millions"),
    (searchWrap (seqL [ciStr "gbp", starRE wsRE, optRE (seqL [ciStr "in", starRE wsRE]),
      ciStr "million"]), "GBP in Millions"),
    (searchWrap (seqL [ciStr "eur", starRE wsRE, optRE (seqL [ciStr "in", starRE wsRE]),
      ciStr "million"]), "EUR in Millions"),
    (searchWrap (chrRE '₹'), "₹ in Crores")]

/-- Embeds `_SECTION_KW` of `pdf_service.py`. -/
def sectionKW : List String := [
  "revenue from operations", "other income", "total income", "total revenue",
  "expenses", "cost of material", "employee benefit", "finance cost",
  "depreciation", "other expenses", "tax expense", "other comprehensive",
  "profit and loss", "balance sheet", "assets", "liabilities", "equity",
  "cash flow", "shareholders", "discontinued", "capital and reserves",
  "earnings per share", "net premium", "gross premium", "claims", "underwriting",
  "operating activities", "investing activities", "financing activities",
  "non-current assets", "current assets", "non-current liabilities",
  "current liabilities"]

/-- Embeds `_SKIP_COL_HEADERS` of `pdf_service.py`. -/
def skipColHeaders : List String := [
  "note no", "note no.", "note", "notes", "sr no", "sr. no", "sl no",
  "sl. no", "no.", "s.no", "ref", "reference", "particulars", "description"]

/-- Embeds `_HDR_NOISE` of `pdf_service.py`. -/
def hdrNoise : List String := [
  "particulars", "sl", "sr", "no", "no.", "sr.", "sl.",
  "s.no", "description", "items", "note no.", "note no", "note"]

/-- The class `[\d\s\.\-\(\)\|,₹\*]` of `_is_noise_line`'s second test. -/
def noiseJunkChar (c : Char) : Bool :=
  isDig c || isPyWS c || c == '.' || c == '-' || c == '(' || c == ')' ||
  c == '|' || c == ',' || c == '₹' || c == '*'

/-- Embeds `_is_noise_line` of `pdf_service.py`. -/
def isNoiseLine (label : String) : Bool :=
  if label == "" || label.length < 3 then true
  else
    let lower := pyStrip (asciiLower label)
    if !lower.data.isEmpty && lower.data.all noiseJunkChar then true
    else if 280 < label.length then true
    else if 1 < (label.data.filter (fun c => c == '|')).length
              + (label.data.filter (fun c => c == '_')).length then true
    else noiseREs.any (fun r => reFull r lower)

/-- Embeds `_is_section` of `pdf_service.py`. -/
def isSection (text : String) : Bool :=
  let lower := asciiLower text
  sectionKW.any (fun k => pyIn k lower)

/-- Embeds `_section_type` of `pdf_service.py`. -/
def sectionType (text : String) : String :=
  let lower := asciiLower text
  if ["revenue", "income", "sales", "premium earned"].any (fun k => pyIn k lower) then
    "REVENUE"
  else if ["expense", "cost", "depreciation", "finance cost", "claims"].any
      (fun k => pyIn k lower) then "EXPENSE"
  else if ["profit", "loss", "ebitda", "pat", "pbt", "earnings", "surplus"].any
      (fun k => pyIn k lower) then "PROFIT"
  else if pyIn "tax" lower then "TAX"
  else if ["asset", "liabilit", "equity", "balance", "capital"].any
      (fun k => pyIn k lower) then "BALANCE"
  else if pyIn "cash" lower || pyIn "activit" lower then "CASHFLOW"
  else "OTHER"

/-- Embeds `_detect_indent` of `pdf_service.py`. -/
def detectIndent (label : String) : Nat :=
  let sp := label.data.length - (label.data.dropWhile isPyWS).length
  if 10 < sp then 2
  else if 3 < sp then 1
  else
    match (pyStrip label).data.head? with
    | some c => if c.isLower then 1 else 0
    | none => 0

/-- Embeds `_detect_unit_from_text` of `pdf_service.py`. -/
def detectUnitFromText (text : String) : Option String :=
  (unitPatterns.find? (fun p => reFull p.1 text)).map (fun p => p.2)

/-- Embeds the substitution `rx.sub('', s)` for an end-anchored pattern such
as `_HDR_UNIT_RE` (whose trailing `.*$` makes every match run to the end of
the string): the leftmost position from which the rest of the string matches
is found and everything from there on is deleted. -/
def subEndAnchored (r : RE) (s : String) : String :=
  match (List.range (s.data.length + 1)).find? (fun i => reRun r (s.data.drop i)) with
  | some i => ⟨s.data.take i⟩
  | none => s

/-- Embeds `_clean_header` of `pdf_service.py`. -/
def cleanHeader (raw : String) : String :=
  let h := cleanCell (some raw)
  if h == "" then ""
  else
    let h := pyStrip (subEndAnchored hdrUnitRE h)
    let h := pyStrip ⟨h.data.filter (fun c => !(c == '■' || c == '*' || c == '†' || c == '‡'))⟩
    pyStrip (collapseWS h)

/-- Embeds `_is_note_col` of `pdf_service.py`. -/
def isNoteCol (header : String) : Bool :=
  skipColHeaders.contains (pyStrip (asciiLower (cleanCell (some header))))

/-- Embeds `parse_number` of `validation_utils.py` on string input. -/
def parseNumber (value : String) : Option ℚ :=
  let cleaned := pyStrip value
  if cleaned == "" then none
  else
    let cleaned := chRemove ')' (chReplace '(' '-' cleaned)
    let cleaned := chRemove ',' cleaned
    let cleaned := chReplace '–' '-' (chReplace '—' '-' cleaned)
    let cleaned : String := ⟨cleaned.data.filter (fun c => !isCurrencySym c)⟩
    let cleaned := pyStrip ⟨cleaned.data.dropWhile isAlphaOrWS⟩
    let cleaned := pyStrip ⟨dropWhileEnd isAlphaOrWS cleaned.data⟩
    if cleaned == "" then none else pyFloatQ cleaned

/-! ## Data model

`RawRow` embeds the row dictionaries built by both extraction paths
(`item`, `values`, `indent`, `section`, `is_section_header`); `sectionTag`
stands for the Python key `section` (a Lean keyword). `ExtractionResult`
embeds the result dictionary (`year_headers`, `rows`, `unit_label`, and the
optional `error` key added by the orchestrator). -/

structure RawRow where
  item : String
  values : List String
  indent : Nat
  sectionTag : String
  isSectionHeader : Bool
deriving DecidableEq, Repr

structure ExtractionResult where
  year_headers : List String
  rows : List RawRow
  unit_label : String
  error : Option String
deriving DecidableEq, Repr

/-! ## `_infer_years_sebi`

The OCR word boxes that reach `_infer_years_sebi` are the external OCR
engine's output; a word is embedded as its text and horizontal centre. -/

structure OWord where
  text : String
  cx : ℚ
deriving DecidableEq, Repr

/-- Embeds `_YEAR_RE.match(t)` (`^20\d{2}$`, fully anchored). -/
def yearMatch (t : String) : Bool :=
  match t.data with
  | ['2', '0', a, b] => isDig a && isDig b
  | _ => false

/-- A `20\d{2}` match starting at the head of the character list, if any,
as its integer value (`int(m.group())`). -/
def yearAt (l : List Char) : Option Int :=
  match l with
  | '2' :: '0' :: a :: b :: _ =>
    if isDig a && isDig b then some (2000 + 10 * (a.toNat - 48) + (b.toNat - 48))
    else none
  | _ => none

/-- Value of the first `20\d{2}` match in a character list (`int(m.group())`). -/
def firstYear : List Char → Option Int
  | [] => none
  | c :: rest =>
    match yearAt (c :: rest) with
    | some y => some y
    | none => firstYear rest

/-- Embeds `re.search(r'20\d{2}', line) is not None`. -/
def containsYear (l : List Char) : Bool :=
  (firstYear l).isSome

/-- First line (among the given ones) containing a `20\d{2}` match, and the
value of that match. -/
def firstYearInLines (lines : List String) : Option Int :=
  match lines with
  | [] => none
  | l :: rest =>
    match firstYear l.data with
    | some y => some y
    | none => firstYearInLines rest

/-- The quarterly-column count table `{2:1,3:2,4:2,5:3,6:3,7:4,8:4}` with
default `max(1, n // 2)`. -/
def quarterlyCount (n : Nat) : Nat :=
  match n with
  | 2 => 1 | 3 => 2 | 4 => 2 | 5 => 3 | 6 => 3 | 7 => 4 | 8 => 4
  | _ => max 1 (n / 2)

/-- Assoc-list lookup with default 0 (a Python dict of counters). -/
def occOf (m : List (String × Nat)) (k : String) : Nat :=
  match m.find? (fun p => p.1 == k) with
  | some p => p.2
  | none => 0

/-- Bump a counter in an assoc list. -/
def occBump (m : List (String × Nat)) (k : String) : List (String × Nat) :=
  match m.find? (fun p => p.1 == k) with
  | some _ => m.map (fun p => if p.1 == k then (p.1, p.2 + 1) else p)
  | none => m ++ [(k, 1)]

/-- The per-header year assignment loop of `_infer_years_sebi`. -/
def inferYearsLoop (ry : Int) (annualStart : Nat) :
    List String → Nat → List (String × Nat) → List (String × Nat) → List String
  | [], _, _, _ => []
  | h :: rest, i, mo, amo =>
    if containsYear h.data then
      h :: inferYearsLoop ry annualStart rest (i + 1) mo amo
    else
      let m3 := asciiLower ⟨h.data.take 3⟩
      if annualStart ≤ i then
        let occ := occOf amo m3
        let yr := if occ == 0 then ry else ry - 1
        (pyStrip (pyStrip h ++ " " ++ toString yr)) ::
          inferYearsLoop ry annualStart rest (i + 1) mo (occBump amo m3)
      else
        let occ := occOf mo m3
        let yr := if m3 == "dec" then ry - 1 else if occ == 0 then ry else ry - 1
        (pyStrip (pyStrip h ++ " " ++ toString yr)) ::
          inferYearsLoop ry annualStart rest (i + 1) (occBump mo m3) amo

/-- Embeds `_infer_years_sebi` of `pdf_service.py`.  `words` is the OCR word
table (`words_df`), `imgWidth` the page image width. -/
def inferYearsSebi (words : List OWord) (imgWidth : ℚ) (plainLines : List String)
    (headers : List String) (colCenters : List ℚ) : List String :=
  let yearWords := words.filter (fun w => yearMatch w.text && (35 : ℚ) / 100 * imgWidth < w.cx)
  let ry1 : Option Int :=
    match yearWords.head? with
    | some w => firstYear w.text.data
    | none => none
  let ry2 : Option Int :=
    match ry1 with
    | some y => some y
    | none => firstYearInLines (plainLines.take 20)
  let ry3 : Option Int :=
    match ry2 with
    | some y => some y
    | none => firstYearInLines headers
  match ry3 with
  | none => headers
  | some ry =>
    let n := colCenters.length
    inferYearsLoop ry (quarterlyCount n) headers 0 [] []

/-! ## The text-layer extractor `_text_extract`

The pdfplumber boundary: for each page the external library produces zero or
more candidate tables per extraction strategy (cells are `Option String`,
`none` embedding `None`), plus the synthetic one-column word-row table built
by `_extract_words_as_table` as fallback.  Everything from there on is
repository logic and is embedded. -/

structure PageTables where
  linesTables : List (List (List (Option String)))
  textTables : List (List (List (Option String)))
  wordRows : List (List (Option String))
deriving Repr

/-- The strategy-selection loop of `_text_extract`: try the `lines` strategy,
accept it if it produced a table with more than 3 rows, otherwise fall back to
the `text` strategy result, and if that is empty fall back to the synthetic
word-row table. -/
def selectTables (p : PageTables) : List (List (List (Option String))) :=
  let chosen :=
    if !p.linesTables.isEmpty && p.linesTables.any (fun tb => 3 < tb.length)
    then p.linesTables else p.textTables
  if chosen.isEmpty then (if p.wordRows.isEmpty then [] else [p.wordRows]) else chosen

/-- Embeds `' '.join(str(c) for c in trow if c)`. -/
def rowText (trow : List (Option String)) : String :=
  String.intercalate " "
    (trow.filterMap (fun c =>
      match c with
      | some s => if s != "" then some s else none
      | none => none))

/-- The header-row scan of `_text_extract`: the first of the first 8 rows
whose joined text matches `_DATE_RE` or contains `Particulars`, else the
first of the first 5 rows with at least 3 non-empty cells. -/
def findHdrIdx (tbl : List (List (Option String))) : Option Nat :=
  match (tbl.take 8).enum.find? (fun p =>
      !p.2.isEmpty && (reSearch dateRE (rowText p.2) || pyIn "Particulars" (rowText p.2))) with
  | some p => some p.1
  | none =>
    ((tbl.take 5).enum.find? (fun p =>
      3 ≤ (p.2.filter (fun c =>
        match c with
        | some s => s != "" && pyStrip s != ""
        | none => false)).length)).map (fun p => p.1)

/-- Embeds `_parse_text_headers` (with `skip_note_cols = True`). -/
def parseTextHeaders (rawRow : List (Option String)) : List String × List Nat :=
  (rawRow.drop 1).enum.foldl (fun (acc : List String × List Nat) p =>
    let i := p.1 + 1
    let text := cleanCell p.2
    if text == "" then acc
    else if hdrNoise.contains (pyStrip (asciiLower text)) then acc
    else if isNoteCol text then acc
    else
      let cleaned := cleanHeader text
      if cleaned != "" then (acc.1 ++ [cleaned], acc.2 ++ [i]) else acc)
    ([], [])

/-- The inner value loop of `_text_extract`: walk `valid_cols`, stop once
`num_h` values are collected, pad with `""` to `num_h`, truncate to `num_h`. -/
def rowVals (validCols : List Nat) (trow : List (Option String)) (numH : Nat) :
    List String :=
  let vals := validCols.foldl (fun (vals : List String) ci =>
    if numH ≤ vals.length then vals
    else
      let cellVal := trow.getD ci none
      vals ++ [toFloatStr (cleanCell (some (cellVal.getD "")))]) []
  (vals ++ List.replicate (numH - vals.length) "").take numH

/-- The running state of `_text_extract`'s page/table loop. -/
structure TES where
  foundHdrs : List String
  validCols : List Nat
  allRows : List RawRow
  curSection : String
deriving Repr

/-- One data row of a table inside `_text_extract`'s row loop. -/
def processDataRow (numH : Nat) (st : TES) (trow : List (Option String)) : TES :=
  if trow.length < 2 then st
  else
    let item := cleanCell (trow.getD 0 none)
    if item == "" || item.length < 2 then st
    else if hdrNoise.contains (asciiLower item) then st
    else if isNoiseLine item then st
    else
      let sec := if isSection item then sectionType item else st.curSection
      let vals := rowVals st.validCols trow numH
      let hasValues := vals.any (fun v => v != "")
      ⟨st.foundHdrs, st.validCols,
        st.allRows ++ [⟨item, vals, detectIndent item, sec,
          !hasValues && isSection item⟩], sec⟩

/-- One candidate table inside `_text_extract`'s per-page loop. -/
def processTable (st : TES) (tbl : List (List (Option String))) : TES :=
  if tbl.length < 2 then st
  else
    match findHdrIdx tbl with
    | none => st
    | some ti =>
      let hdrRow := tbl.getD ti []
      let parsed := parseTextHeaders hdrRow
      let fhvc :=
        if !parsed.1.isEmpty && st.foundHdrs.length < parsed.1.length
        then (parsed.1, parsed.2) else (st.foundHdrs, st.validCols)
      let vc := if fhvc.2.isEmpty then List.range' 1 (hdrRow.length - 1) else fhvc.2
      let numH := if fhvc.1.isEmpty then 5 else fhvc.1.length
      (tbl.drop (ti + 1)).foldl (processDataRow numH) ⟨fhvc.1, vc, st.allRows, st.curSection⟩

/-- Embeds `_text_extract` from the pdfplumber boundary: `pages` are the
per-page table-extraction outputs, `fullText` the concatenated
`extract_text` output of the sampled pages (used only for unit detection). -/
def textExtract (pages : List PageTables) (fullText : String) : ExtractionResult :=
  let st := pages.foldl (fun st p => (selectTables p).foldl processTable st)
    ⟨[], [], [], "OTHER"⟩
  ⟨st.foundHdrs.take 8, st.allRows, (detectUnitFromText fullText).getD "", none⟩

/-! ## The OCR aggregation loop of `_ocr_extract`

`_extract_page` consumes the OCR engine's word boxes for one page image; its
per-page output (headers and rows) is the boundary here.  The aggregation
across pages — keep the longest header list, concatenate all rows — and the
unit detection over the plain OCR text are repository logic and are embedded. -/

def ocrExtract (pageResults : List (List String × List RawRow)) (fullText : String) :
    ExtractionResult :=
  let st := pageResults.foldl
    (fun (acc : List String × List RawRow) pg =>
      (if acc.1.length < pg.1.length then pg.1 else acc.1, acc.2 ++ pg.2))
    ([], [])
  ⟨st.1, st.2, (detectUnitFromText fullText).getD "", none⟩

/-! ## The orchestrator `extract_table_structure`

Cache lookup, document classification and the two extraction paths sit at the
I/O boundary: `cached` embeds `_load_cache`'s result, `hasText` the
text-layer classification, and `textR`/`ocrR` the two path results. The
finalization (placeholder headers, deduplication, error marker) is embedded
verbatim.  The embedded function is total: the source never lets an exception
escape to the caller. -/

/-- The dedup key `row["item"].strip().lower()`. -/
def rowKeyStr (s : String) : String := asciiLower (pyStrip s)

/-- The dedup loop of `extract_table_structure` (`seen` set, first wins,
rows with an empty key dropped). -/
def dedupeGo (seen : List String) (acc : List RawRow) : List RawRow → List RawRow
  | [] => acc
  | row :: rest =>
    let key := rowKeyStr row.item
    if !(seen.contains key) && key != "" then
      dedupeGo (seen ++ [key]) (acc ++ [row]) rest
    else dedupeGo seen acc rest

/-- Deduplicate rows by normalized label, first occurrence wins. -/
def dedupeRows (rows : List RawRow) : List RawRow := dedupeGo [] [] rows

/-- The `FINALIZE` step (lines 870–888): placeholder year headers,
deduplication, error marker when no rows were extracted. -/
def finalizeResult (r : ExtractionResult) : ExtractionResult :=
  let hdrs :=
    if r.year_headers.isEmpty
    then ["Period 1", "Period 2", "Period 3", "Period 4", "Period 5"]
    else r.year_headers
  let rows := dedupeRows r.rows
  ⟨hdrs, rows, r.unit_label,
    if rows.isEmpty then some "Could not extract financial data from this PDF"
    else r.error⟩

/-- The strategy/quality-check branch of `extract_table_structure`: a
text-layer PDF uses the text path unless it produced fewer than 5 rows, in
which case the OCR fallback result is used; an image PDF goes straight to
OCR. -/
def selectPath (hasText : Bool) (textR ocrR : ExtractionResult) : ExtractionResult :=
  if hasText then (if textR.rows.length < 5 then ocrR else textR) else ocrR

/-- Embeds `extract_table_structure` of `pdf_service.py` from the I/O
boundary (cache contents, classification, and the two path results). -/
def extractTableStructure (cached : Option ExtractionResult) (hasText : Bool)
    (textR ocrR : ExtractionResult) : ExtractionResult :=
  match cached with
  | some c => c
  | none => finalizeResult (selectPath hasText textR ocrR)

/-! ## Normalization predicates used to state the invariants -/

/-- Case- and whitespace-insensitive label normalization: collapse whitespace
runs, strip the ends, lower-case. -/
def normLabel (s : String) : String := asciiLower (pyStrip (collapseWS s))

/-- A label in the form both extractors produce: whitespace already collapsed
to single interior spaces and stripped at the ends (`_clean_cell` output on
the text path, the `re.sub(r'\s+', ' ', ...).strip()` label assembly on the
OCR path). -/
def wsClean (s : String) : Bool := pyStrip (collapseWS s) == s

/-! ## Concrete inputs used by the counterexamples and witnesses -/

/-- A table whose header row is recognized (it contains `Particulars`) but
whose header cells are all skip-column labels, so `_parse_text_headers`
returns no headers and the batch is emitted with the default width of 5. -/
def tblNoteHdrs : List (List (Option String)) :=
  [[some "Particulars", some "Note", some "Note", some "Note"],
   [some "Alpha", some "100", some "200", some "300"],
   [some "Beta", some "10", some "20", some "30"],
   [some "Gamma", some "40", some "50", some "60"],
   [some "Delta", some "5", some "6", some "7"]]

/-- A second table on the same page with two parsed year headers. -/
def tblFyHdrs : List (List (Option String)) :=
  [[some "Particulars", some "FY 2024", some "FY 2023"],
   [some "Omega", some "50", some "60"]]

/-- The page combining the two tables above (`lines` strategy accepted since
the first table has more than 3 rows). -/
def pageMixed : PageTables := ⟨[tblNoteHdrs, tblFyHdrs], [], []⟩

/-- A single-table page whose headers are parsed before any data row. -/
def tblUniform : List (List (Option String)) :=
  [[some "Particulars", some "FY 2024", some "FY 2023"],
   [some "Alpha", some "100", some "200"],
   [some "Beta", some "10", some "20"],
   [some "Gamma", some "40", some "50"],
   [some "Delta", some "5", some "6"],
   [some "Omega", some "65", some "164"]]

/-- The page holding `tblUniform` alone. -/
def pageUniform : PageTables := ⟨[tblUniform], [], []⟩

/-- An empty extraction result (a path that found nothing). -/
def blankResult : ExtractionResult := ⟨[], [], "", none⟩

/-- A small OCR-path page-row as `_extract_page` emits it. -/
def ocrRowSample : RawRow :=
  ⟨"Revenue from operations", ["100.0", "200.0", "300.0"], 0, "REVENUE", false⟩

/-- The OCR word table of the quarter-page used by the fiscal-year-backfill
counterexamples: one recognized standalone year token right of 35% of the
image width. -/
def yearWordSample : List OWord := [⟨"2024", 700⟩]

/-- The duplicate-header OCR result produced by fiscal-year backfill on
headers `["Dec", "Mar", "Mar"]` with anchor year 2024. -/
def ocrDupHeaders : ExtractionResult :=
  ocrExtract [(inferYearsSebi yearWordSample 1000 [] ["Dec", "Mar", "Mar"]
    [400, 600, 800], [ocrRowSample])] ""

end AuditFlow

namespace AuditFlow

/- The core arithmetic of `Rat` and `Nat.gcd` is `@[irreducible]`, which
blocks elaborator-side evaluation in `decide` (the kernel is unaffected);
make them semireducible inside this block. -/
unseal Rat.add Rat.sub Rat.mul Rat.inv Nat.gcd

/-! ## Supporting lemmas -/

lemma strMk_data (s : String) : (⟨s.data⟩ : String) = s := by cases s; rfl

lemma dropWhile_eq_self_of_head (p : Char → Bool) (l : List Char)
    (h : ∀ c, l.head? = some c → p c = false) : l.dropWhile p = l := by
  cases l with
  | nil => rfl
  | cons a t => simp [List.dropWhile, h a rfl]

lemma head_dropWhile_false (p : Char → Bool) (l : List Char) :
    ∀ c, (l.dropWhile p).head? = some c → p c = false := by
  induction l with
  | nil => intro c hc; simp [List.dropWhile] at hc
  | cons a t ih =>
    intro c hc
    cases ha : p a with
    | true => rw [List.dropWhile_cons, ha] at hc; simp at hc; exact ih c hc
    | false => rw [List.dropWhile_cons, ha] at hc; simp at hc; rw [← hc]; exact ha

lemma dropWhileEnd_eq_self_of_last (p : Char → Bool) (l : List Char)
    (h : ∀ c, l.getLast? = some c → p c = false) : dropWhileEnd p l = l := by
  unfold dropWhileEnd
  rw [dropWhile_eq_self_of_head p l.reverse
    (fun c hc => h c (by rwa [List.head?_reverse] at hc)), List.reverse_reverse]

lemma pyStrip_eq_self (s : String)
    (h1 : ∀ c, s.data.head? = some c → isPyWS c = false)
    (h2 : ∀ c, s.data.getLast? = some c → isPyWS c = false) : pyStrip s = s := by
  unfold pyStrip
  rw [dropWhile_eq_self_of_head _ _ h1, dropWhileEnd_eq_self_of_last _ _ h2, strMk_data]

lemma prefix_head (l₁ l₂ : List Char) (h : l₁ <+: l₂) :
    ∀ c, l₁.head? = some c → l₂.head? = some c := by
  intro c hc
  obtain ⟨t, rfl⟩ := h
  cases l₁ with
  | nil => simp at hc
  | cons a r => simp at hc ⊢; exact hc

lemma dropWhileEnd_prefix (p : Char → Bool) (l : List Char) : dropWhileEnd p l <+: l := by
  unfold dropWhileEnd
  have h : l.reverse.dropWhile p <:+ l.reverse := List.dropWhile_suffix p
  have h2 := List.reverse_prefix.mpr h
  rwa [List.reverse_reverse] at h2

lemma pyStrip_head (s : String) :
    ∀ c, (pyStrip s).data.head? = some c → isPyWS c = false := by
  intro c hc
  have hpre := dropWhileEnd_prefix isPyWS (s.data.dropWhile isPyWS)
  have := prefix_head _ _ hpre c hc
  exact head_dropWhile_false isPyWS s.data c this

lemma pyStrip_last (s : String) :
    ∀ c, (pyStrip s).data.getLast? = some c → isPyWS c = false := by
  intro c hc
  unfold pyStrip dropWhileEnd at hc
  rw [List.getLast?_reverse] at hc
  exact head_dropWhile_false isPyWS _ c hc

lemma pyStrip_idem (s : String) : pyStrip (pyStrip s) = pyStrip s :=
  pyStrip_eq_self _ (pyStrip_head s) (pyStrip_last s)

lemma asciiLower_empty_iff (s : String) : asciiLower s = "" ↔ s = "" := by
  constructor
  · intro h
    have h2 : (asciiLower s).data = [] := by rw [h]
    unfold asciiLower at h2
    simp only [List.map_eq_nil_iff] at h2
    rw [← strMk_data s, h2]
  · intro h; rw [h]; rfl

end AuditFlow

namespace AuditFlow

/- The core arithmetic of `Rat` and `Nat.gcd` is `@[irreducible]`, which
blocks elaborator-side evaluation in `decide` (the kernel is unaffected);
make them semireducible inside this block. -/
unseal Rat.add Rat.sub Rat.mul Rat.inv Nat.gcd

lemma dedupeGo_acc (l : List RawRow) : ∀ (seen : List String) (acc : List RawRow),
    dedupeGo seen acc l = acc ++ dedupeGo seen [] l := by
  induction l with
  | nil => intro seen acc; simp [dedupeGo]
  | cons row rest ih =>
    intro seen acc
    by_cases h : (!(seen.contains (rowKeyStr row.item)) && rowKeyStr row.item != "") = true
    · rw [dedupeGo, if_pos h, dedupeGo, if_pos h, ih _ (acc ++ [row]), ih _ ([] ++ [row])]
      simp
    · rw [dedupeGo, if_neg h, dedupeGo, if_neg h]
      exact ih seen acc

lemma dedupeGo_mem (l : List RawRow) : ∀ (seen : List String) (r : RawRow),
    r ∈ dedupeGo seen [] l →
    r ∈ l ∧ rowKeyStr r.item ∉ seen ∧ rowKeyStr r.item ≠ "" := by
  induction l with
  | nil => intro seen r hr; simp [dedupeGo] at hr
  | cons row rest ih =>
    intro seen r hr
    by_cases h : (!(seen.contains (rowKeyStr row.item)) && rowKeyStr row.item != "") = true
    · rw [dedupeGo, if_pos h, dedupeGo_acc] at hr
      simp only [List.nil_append, List.mem_append, List.mem_singleton] at hr
      rcases hr with hr | hr
      · subst hr
        simp only [Bool.and_eq_true, Bool.not_eq_true', bne_iff_ne, ne_eq] at h
        refine ⟨List.mem_cons_self _ _, ?_, h.2⟩
        intro hmem
        have hc : seen.contains (rowKeyStr r.item) = true := by
          simpa [List.contains, List.elem_iff] using hmem
        rw [h.1] at hc
        exact Bool.false_ne_true hc
      · have := ih _ r hr
        refine ⟨List.mem_cons_of_mem _ this.1, ?_, this.2.2⟩
        intro hmem
        exact this.2.1 (List.mem_append_left _ hmem)
    · rw [dedupeGo, if_neg h] at hr
      have := ih _ r hr
      exact ⟨List.mem_cons_of_mem _ this.1, this.2.1, this.2.2⟩

end AuditFlow

namespace AuditFlow

/- The core arithmetic of `Rat` and `Nat.gcd` is `@[irreducible]`, which
blocks elaborator-side evaluation in `decide` (the kernel is unaffected);
make them semireducible inside this block. -/
unseal Rat.add Rat.sub Rat.mul Rat.inv Nat.gcd

lemma dedupeGo_first (l : List RawRow) : ∀ (seen : List String) (r : RawRow),
    r ∈ dedupeGo seen [] l →
    l.find? (fun x => rowKeyStr x.item == rowKeyStr r.item) = some r := by
  induction l with
  | nil => intro seen r hr; simp [dedupeGo] at hr
  | cons row rest ih =>
    intro seen r hr
    by_cases h : (!(seen.contains (rowKeyStr row.item)) && rowKeyStr row.item != "") = true
    · rw [dedupeGo, if_pos h, dedupeGo_acc] at hr
      simp only [List.nil_append, List.mem_append, List.mem_singleton] at hr
      rcases hr with hr | hr
      · subst hr
        rw [List.find?_cons]
        simp
      · have hne : rowKeyStr r.item ≠ rowKeyStr row.item := by
          have hmem := dedupeGo_mem rest _ r hr
          intro heq
          exact hmem.2.1 (by rw [heq]; exact List.mem_append_right _ (List.mem_singleton.mpr rfl))
        rw [List.find?_cons]
        have : (rowKeyStr row.item == rowKeyStr r.item) = false := by
          simp [hne]
          intro heq
          exact hne heq.symm
        rw [this]
        exact ih _ r hr
    · rw [dedupeGo, if_neg h] at hr
      have hmem := dedupeGo_mem rest _ r hr
      simp only [Bool.and_eq_true, Bool.not_eq_true', bne_iff_ne, ne_eq, not_and,
        Bool.not_eq_false, not_not] at h
      have hne : rowKeyStr r.item ≠ rowKeyStr row.item := by
        intro heq
        by_cases hc : seen.contains (rowKeyStr row.item) = true
        · have : rowKeyStr row.item ∈ seen := by
            simpa [List.contains, List.elem_iff] using hc
          rw [← heq] at this
          exact hmem.2.1 this
        · have hkey := h (by simpa using hc)
          rw [← heq] at hkey
          exact hmem.2.2 hkey
      rw [List.find?_cons]
      have hbeq : (rowKeyStr row.item == rowKeyStr r.item) = false := by
        simp
        intro heq
        exact hne heq.symm
      rw [hbeq]
      exact ih _ r hr

lemma dedupeGo_keys_nodup (l : List RawRow) : ∀ (seen : List String),
    ((dedupeGo seen [] l).map (fun r => rowKeyStr r.item)).Nodup := by
  induction l with
  | nil => intro seen; simp [dedupeGo]
  | cons row rest ih =>
    intro seen
    by_cases h : (!(seen.contains (rowKeyStr row.item)) && rowKeyStr row.item != "") = true
    · rw [dedupeGo, if_pos h, dedupeGo_acc]
      simp only [List.nil_append, List.map_cons, List.singleton_append]
      rw [List.nodup_cons]
      constructor
      · intro hmem
        simp only [List.mem_map] at hmem
        obtain ⟨r, hr, hkey⟩ := hmem
        have := dedupeGo_mem rest _ r hr
        exact this.2.1 (by rw [hkey]; exact List.mem_append_right _ (List.mem_singleton.mpr rfl))
      · exact ih _
    · rw [dedupeGo, if_neg h]
      exact ih _

end AuditFlow

namespace AuditFlow

/- The core arithmetic of `Rat` and `Nat.gcd` is `@[irreducible]`, which
blocks elaborator-side evaluation in `decide` (the kernel is unaffected);
make them semireducible inside this block. -/
unseal Rat.add Rat.sub Rat.mul Rat.inv Nat.gcd

lemma extract_rows_eq (hasText : Bool) (textR ocrR : ExtractionResult) :
    (extractTableStructure none hasText textR ocrR).rows =
      dedupeGo [] [] (selectPath hasText textR ocrR).rows := rfl

lemma selectPath_rows_cases (hasText : Bool) (textR ocrR : ExtractionResult) :
    (selectPath hasText textR ocrR).rows = textR.rows ∨
    (selectPath hasText textR ocrR).rows = ocrR.rows := by
  unfold selectPath
  split
  · split
    · exact Or.inr rfl
    · exact Or.inl rfl
  · exact Or.inr rfl

lemma find?_congr_mem {α : Type} (l : List α) (p q : α → Bool)
    (h : ∀ x ∈ l, p x = q x) : l.find? p = l.find? q := by
  induction l with
  | nil => rfl
  | cons a t ih =>
    rw [List.find?_cons, List.find?_cons, h a (List.mem_cons_self a t)]
    cases q a
    · exact ih (fun x hx => h x (List.mem_cons_of_mem a hx))
    · rfl

lemma wsClean_key_eq_norm (s : String) (h : wsClean s = true) :
    rowKeyStr s = normLabel s := by
  unfold wsClean at h
  have heq : pyStrip (collapseWS s) = s := by
    exact eq_of_beq h
  unfold rowKeyStr normLabel
  rw [heq]
  congr 1
  conv_lhs => rw [← heq]
  rw [pyStrip_idem, heq]

end AuditFlow

namespace AuditFlow

/- The core arithmetic of `Rat` and `Nat.gcd` is `@[irreducible]`, which
blocks elaborator-side evaluation in `decide` (the kernel is unaffected);
make them semireducible inside this block. -/
unseal Rat.add Rat.sub Rat.mul Rat.inv Nat.gcd

/-- C3: in every result of `extract_table_structure`, no two rows share a
case/whitespace-insensitive normalized label, and each surviving row is the
first row of the selected extraction batch carrying its normalized label. -/
theorem claim_C3 (hasText : Bool) (textR ocrR : ExtractionResult)
    (hclean : ∀ r ∈ textR.rows ++ ocrR.rows, wsClean r.item = true) :
    (((extractTableStructure none hasText textR ocrR).rows.map
        (fun r => normLabel r.item)).Nodup) ∧
    ∀ r ∈ (extractTableStructure none hasText textR ocrR).rows,
      (selectPath hasText textR ocrR).rows.find?
        (fun x => normLabel x.item == normLabel r.item) = some r := by
  have hcleanSel : ∀ r ∈ (selectPath hasText textR ocrR).rows, wsClean r.item = true := by
    intro r hr
    rcases selectPath_rows_cases hasText textR ocrR with hc | hc
    · exact hclean r (List.mem_append_left _ (hc ▸ hr))
    · exact hclean r (List.mem_append_right _ (hc ▸ hr))
  constructor
  · rw [extract_rows_eq]
    have hmapeq : (dedupeGo [] [] (selectPath hasText textR ocrR).rows).map
        (fun r => normLabel r.item) =
        (dedupeGo [] [] (selectPath hasText textR ocrR).rows).map
        (fun r => rowKeyStr r.item) := by
      apply List.map_congr_left
      intro r hr
      have hrsel := (dedupeGo_mem _ [] r hr).1
      exact (wsClean_key_eq_norm _ (hcleanSel r hrsel)).symm
    rw [hmapeq]
    exact dedupeGo_keys_nodup _ []
  · intro r hr
    rw [extract_rows_eq] at hr
    have hrsel := (dedupeGo_mem _ [] r hr).1
    have hfirst := dedupeGo_first _ [] r hr
    rw [← hfirst]
    apply (find?_congr_mem _ _ _ _).symm
    intro x hx
    rw [wsClean_key_eq_norm _ (hcleanSel x hx),
      wsClean_key_eq_norm _ (hcleanSel r hrsel)]

/-- C4: a text-layer document whose text-path extraction produced fewer than
5 rows falls back to OCR: the returned value is the finalized OCR result. -/
theorem claim_C4 (textR ocrR : ExtractionResult) (h : textR.rows.length < 5) :
    extractTableStructure none true textR ocrR = finalizeResult ocrR := by
  simp [extractTableStructure, selectPath, h]

/-- C5: when both extraction paths produced zero rows, the returned result
has an empty row list and a non-null error string (the embedded function is
total, modelling that the source returns a value rather than raising). -/
theorem claim_C5 (hasText : Bool) (textR ocrR : ExtractionResult)
    (ht : textR.rows = []) (ho : ocrR.rows = []) :
    (extractTableStructure none hasText textR ocrR).rows = [] ∧
    (extractTableStructure none hasText textR ocrR).error ≠ none := by
  have hsel : (selectPath hasText textR ocrR).rows = [] := by
    rcases selectPath_rows_cases hasText textR ocrR with hc | hc
    · rw [hc, ht]
    · rw [hc, ho]
  constructor
  · rw [extract_rows_eq, hsel]; rfl
  · show (finalizeResult (selectPath hasText textR ocrR)).error ≠ none
    unfold finalizeResult dedupeRows
    rw [hsel]
    simp [dedupeGo]

/-- C10: every row surviving finalization of a freshly extracted result has a
label that is non-empty after stripping whitespace (rows whose stripped label
is empty are dropped by the dedup pass). -/
theorem claim_C10 (hasText : Bool) (textR ocrR : ExtractionResult) :
    ∀ r ∈ (extractTableStructure none hasText textR ocrR).rows,
      pyStrip r.item ≠ "" := by
  intro r hr
  rw [extract_rows_eq] at hr
  have hkey := (dedupeGo_mem _ [] r hr).2.2
  intro hstrip
  apply hkey
  unfold rowKeyStr
  rw [hstrip]
  rfl

/-- C6 (amended): when neither path detected any year headers the placeholder
sequence `Period 1`..`Period 5` (which is pairwise distinct) is substituted;
detected headers themselves are not deduplicated. -/
theorem claim_C6_amended (hasText : Bool) (textR ocrR : ExtractionResult)
    (ht : textR.year_headers = []) (ho : ocrR.year_headers = []) :
    (extractTableStructure none hasText textR ocrR).year_headers =
      ["Period 1", "Period 2", "Period 3", "Period 4", "Period 5"] ∧
    (extractTableStructure none hasText textR ocrR).year_headers.Nodup := by
  have hsel : (selectPath hasText textR ocrR).year_headers = [] := by
    unfold selectPath
    split
    · split
      · exact ho
      · exact ht
    · exact ho
  have hh : (extractTableStructure none hasText textR ocrR).year_headers =
      ["Period 1", "Period 2", "Period 3", "Period 4", "Period 5"] := by
    show (finalizeResult (selectPath hasText textR ocrR)).year_headers = _
    unfold finalizeResult
    rw [hsel]
    rfl
  exact ⟨hh, by rw [hh]; decide⟩

end AuditFlow

namespace AuditFlow

/- The core arithmetic of `Rat` and `Nat.gcd` is `@[irreducible]`, which
blocks elaborator-side evaluation in `decide` (the kernel is unaffected);
make them semireducible inside this block. -/
unseal Rat.add Rat.sub Rat.mul Rat.inv Nat.gcd

set_option maxRecDepth 40000

/-- C2 (amended): fiscal-year backfill on headers `["Dec", "Mar", "Mar"]`
with anchor reporting year 2024 and three column centres yields
`["Dec 2023", "Mar 2024", "Mar 2024"]`: the quarterly-block December gets the
prior year, the quarterly-block March the current year, and the first
annual-block occurrence of a month also gets the current year (occurrence
counting restarts inside the annual block). -/
theorem claim_C2_amended :
    inferYearsSebi yearWordSample 1000 [] ["Dec", "Mar", "Mar"] [400, 600, 800] =
      ["Dec 2023", "Mar 2024", "Mar 2024"] := by decide

/-- C2 counterexample: the backfill result differs from the sequence the
claim requires (`["Dec 2023", "Mar 2024", "Mar 2023"]`). -/
theorem claim_C2_cex :
    inferYearsSebi yearWordSample 1000 [] ["Dec", "Mar", "Mar"] [400, 600, 800] ≠
      ["Dec 2023", "Mar 2024", "Mar 2023"] := by decide

/-- C6 counterexample: a returned result whose year headers contain a
duplicate (`Mar 2024` twice), produced by fiscal-year backfill with anchor
2024 on month headers `["Dec", "Mar", "Mar"]`. -/
theorem claim_C6_cex :
    (extractTableStructure none false blankResult ocrDupHeaders).year_headers =
      ["Dec 2023", "Mar 2024", "Mar 2024"] ∧
    ¬ (extractTableStructure none false blankResult ocrDupHeaders).year_headers.Nodup := by
  constructor
  · decide
  · decide

theorem claim_C6_witness :
    (extractTableStructure none false blankResult blankResult).year_headers =
      ["Period 1", "Period 2", "Period 3", "Period 4", "Period 5"] ∧
    (extractTableStructure none false blankResult blankResult).year_headers.Nodup :=
  claim_C6_amended false blankResult blankResult rfl rfl

theorem claim_C4_witness :
    (ExtractionResult.mk [] [ocrRowSample, ocrRowSample, ocrRowSample] "" none).rows.length < 5 ∧
    extractTableStructure none true
      ⟨[], [ocrRowSample, ocrRowSample, ocrRowSample], "", none⟩ blankResult =
      finalizeResult blankResult :=
  ⟨by decide, claim_C4 ⟨[], [ocrRowSample, ocrRowSample, ocrRowSample], "", none⟩
    blankResult (by decide)⟩

theorem claim_C5_witness :
    (extractTableStructure none true blankResult blankResult).rows = [] ∧
    (extractTableStructure none true blankResult blankResult).error ≠ none :=
  claim_C5 true blankResult blankResult rfl rfl

theorem claim_C10_witness :
    pyStrip ocrRowSample.item ≠ "" :=
  claim_C10 false blankResult ⟨[], [ocrRowSample], "", none⟩ ocrRowSample (by decide)

end AuditFlow

namespace AuditFlow

/- The core arithmetic of `Rat` and `Nat.gcd` is `@[irreducible]`, which
blocks elaborator-side evaluation in `decide` (the kernel is unaffected);
make them semireducible inside this block. -/
unseal Rat.add Rat.sub Rat.mul Rat.inv Nat.gcd

/-! ## Character facts for note-reference tokens -/

lemma isDig_ne (c c' : Char) (h : isDig c = true) (h' : isDig c' = false) : c ≠ c' := by
  intro he
  rw [he, h'] at h
  exact Bool.false_ne_true h

lemma isDig_not_pyWS (c : Char) (h : isDig c = true) : isPyWS c = false := by
  cases hw : isPyWS c with
  | false => rfl
  | true =>
    exfalso
    simp only [isPyWS, Bool.or_eq_true, beq_iff_eq] at hw
    rcases hw with ((((h1 | h1) | h1) | h1) | h1) | h1 <;>
      (subst h1; exact absurd h (by decide))

lemma isDig_not_curWS (c : Char) (h : isDig c = true) : isCurrencyOrWS c = false := by
  cases hw : isCurrencyOrWS c with
  | false => rfl
  | true =>
    exfalso
    simp only [isCurrencyOrWS, Bool.or_eq_true, beq_iff_eq] at hw
    rcases hw with (((h1 | h1) | h1) | h1) | h1
    · subst h1; exact absurd h (by decide)
    · subst h1; exact absurd h (by decide)
    · subst h1; exact absurd h (by decide)
    · subst h1; exact absurd h (by decide)
    · rw [isDig_not_pyWS c h] at h1; exact Bool.false_ne_true h1

lemma digDot_ne_comma (c : Char) (h : digDot c) : c ≠ ',' := by
  rcases h with h | h
  · exact isDig_ne c ',' h (by decide)
  · subst h; decide

lemma digDot_ne_space (c : Char) (h : digDot c) : c ≠ ' ' := by
  rcases h with h | h
  · exact isDig_ne c ' ' h (by decide)
  · subst h; decide

lemma digDot_ne_nl (c : Char) (h : digDot c) : c ≠ '\n' := by
  rcases h with h | h
  · exact isDig_ne c '\n' h (by decide)
  · subst h; decide

lemma digDot_not_pyWS (c : Char) (h : digDot c) : isPyWS c = false := by
  rcases h with h | h
  · exact isDig_not_pyWS c h
  · subst h; decide

lemma digDot_not_curWS (c : Char) (h : digDot c) : isCurrencyOrWS c = false := by
  rcases h with h | h
  · exact isDig_not_curWS c h
  · subst h; decide

/-! ## Decomposition of note-shaped tokens -/

lemma noteMatch_decomp (s : String) (h : noteMatch s = true) :
    ∃ d1 d2 : List Char, s.data = d1 ++ '.' :: d2 ∧ d1 ≠ [] ∧ d2 ≠ [] ∧
      (∀ c ∈ d1, isDig c = true) ∧ (∀ c ∈ d2, isDig c = true) := by
  unfold noteMatch at h
  cases hr : s.data.dropWhile isDig with
  | nil => rw [hr] at h; exact absurd h (by simp)
  | cons c d2 =>
    rw [hr] at h
    simp only [Bool.and_eq_true, beq_iff_eq, Bool.not_eq_true', List.isEmpty_eq_false,
      List.isEmpty_iff, List.all_eq_true, ne_eq] at h
    obtain ⟨hc, hd1, hd2, hall2⟩ := h
    subst hc
    refine ⟨s.data.takeWhile isDig, d2, ?_, hd1, hd2, ?_, hall2⟩
    · conv_lhs => rw [← List.takeWhile_append_dropWhile (p := isDig) (l := s.data)]
      rw [hr]
    · intro c hc
      exact List.mem_takeWhile_imp hc

lemma noteMatch_chars (s : String) (h : noteMatch s = true) :
    s.data ≠ [] ∧ (∀ c ∈ s.data, digDot c) ∧
    (∃ c, s.data.head? = some c ∧ isDig c = true) ∧
    (∃ c, s.data.getLast? = some c ∧ isDig c = true) := by
  obtain ⟨d1, d2, hsplit, hd1, hd2, hall1, hall2⟩ := noteMatch_decomp s h
  refine ⟨?_, ?_, ?_, ?_⟩
  · rw [hsplit]; exact List.append_ne_nil_of_right_ne_nil _ (by simp)
  · intro c hc
    rw [hsplit] at hc
    rcases List.mem_append.mp hc with hm | hm
    · exact Or.inl (hall1 c hm)
    · rcases List.mem_cons.mp hm with hm | hm
      · exact Or.inr hm
      · exact Or.inl (hall2 c hm)
  · cases hd1c : d1 with
    | nil => exact absurd hd1c hd1
    | cons a t =>
      refine ⟨a, ?_, hall1 a (by rw [hd1c]; exact List.mem_cons_self a t)⟩
      rw [hsplit, hd1c]
      rfl
  · cases hd2c : d2.getLast? with
    | none => exact absurd (List.getLast?_eq_none_iff.mp hd2c) hd2
    | some a =>
      refine ⟨a, ?_, hall2 a (List.mem_of_mem_getLast? hd2c)⟩
      rw [hsplit, List.getLast?_append]
      cases hd2cc : d2 with
      | nil => exact absurd hd2cc hd2
      | cons b t =>
        rw [hd2cc] at hd2c
        rw [List.getLast?_cons_cons, hd2c]
        rfl

end AuditFlow

namespace AuditFlow

/- The core arithmetic of `Rat` and `Nat.gcd` is `@[irreducible]`, which
blocks elaborator-side evaluation in `decide` (the kernel is unaffected);
make them semireducible inside this block. -/
unseal Rat.add Rat.sub Rat.mul Rat.inv Nat.gcd

/-! ## Identity of the token-cleaning steps on note-shaped tokens -/

lemma chRemove_eq_self (a : Char) (s : String) (h : ∀ c ∈ s.data, c ≠ a) :
    chRemove a s = s := by
  unfold chRemove
  rw [List.filter_eq_self.mpr, strMk_data]
  intro c hc
  simpa using h c hc

lemma chReplace_eq_self (a b : Char) (s : String) (h : ∀ c ∈ s.data, c ≠ a) :
    chReplace a b s = s := by
  unfold chReplace
  have : s.data.map (fun c => if c == a then b else c) = s.data.map id := by
    apply List.map_congr_left
    intro c hc
    simp [h c hc]
  rw [this, List.map_id, strMk_data]

lemma squeeze_eq_self (l : List Char) (h : ∀ c ∈ l, c ≠ ' ') : squeezeSpaces l = l := by
  induction l with
  | nil => rfl
  | cons a t ih =>
    cases t with
    | nil => rfl
    | cons b r =>
      rw [show squeezeSpaces (a :: b :: r) =
        (if a == ' ' && b == ' ' then squeezeSpaces (b :: r)
         else a :: squeezeSpaces (b :: r)) from rfl]
      rw [if_neg (by simp [h a (List.mem_cons_self a _)])]
      rw [ih (fun c hc => h c (List.mem_cons_of_mem _ hc))]

lemma collapseWS_eq_self (s : String) (h : ∀ c ∈ s.data, isPyWS c = false) :
    collapseWS s = s := by
  unfold collapseWS
  have hmap : s.data.map (fun c => if isPyWS c then ' ' else c) = s.data.map id := by
    apply List.map_congr_left
    intro c hc
    simp [h c hc]
  rw [hmap, List.map_id, squeeze_eq_self, strMk_data]
  intro c hc
  intro he
  have := h c hc
  rw [he] at this
  exact absurd this (by decide)

lemma pyStrip_eq_self_of_ends (s : String) (c1 c2 : Char)
    (h1 : s.data.head? = some c1) (hd1 : isPyWS c1 = false)
    (h2 : s.data.getLast? = some c2) (hd2 : isPyWS c2 = false) : pyStrip s = s := by
  apply pyStrip_eq_self
  · intro c hc
    rw [h1] at hc
    cases hc
    exact hd1
  · intro c hc
    rw [h2] at hc
    cases hc
    exact hd2

lemma headIs_false_of (s : String) (a c : Char) (h : s.data.head? = some c)
    (hne : c ≠ a) : headIs s a = false := by
  unfold headIs
  rw [h]
  simp [hne]

lemma ne_of_heads (s t : String) (c c' : Char) (hs : s.data.head? = some c)
    (ht : t.data.head? = some c') (hne : c ≠ c') : s ≠ t := by
  intro he
  rw [he, ht] at hs
  cases hs
  exact hne rfl

lemma str_ne_empty_of_data (s : String) (h : s.data ≠ []) : s ≠ "" := by
  intro he
  rw [he] at h
  exact h rfl

lemma beq_empty_false_of_data (s : String) (h : s.data ≠ []) : (s == "") = false := by
  have := str_ne_empty_of_data s h
  simpa using this

/-- The function `_clean_cell` leaves a note-shaped token unchanged. -/
lemma cleanCell_eq_self_of_digDot (s : String) (_hne : s.data ≠ [])
    (hall : ∀ c ∈ s.data, digDot c) (hh : ∃ c, s.data.head? = some c ∧ isDig c = true) :
    cleanCell (some s) = s := by
  obtain ⟨hc, hhd, hdig⟩ := hh
  have hrep : chReplace '\n' ' ' s = s :=
    chReplace_eq_self _ _ _ (fun c hc => digDot_ne_nl c (hall c hc))
  have hcol : collapseWS s = s :=
    collapseWS_eq_self s (fun c hc => digDot_not_pyWS c (hall c hc))
  have hstrip : pyStrip s = s := by
    apply pyStrip_eq_self
    · intro c hcc
      rw [hhd] at hcc
      cases hcc
      exact isDig_not_pyWS _ hdig
    · intro c hcc
      have hmem := List.mem_of_mem_getLast? hcc
      exact digDot_not_pyWS c (hall c hmem)
  simp only [cleanCell, hrep, hcol, hstrip]
  rw [if_neg]
  intro hmem
  have hsm : s ∈ dashSet := by
    simpa [List.contains, List.elem_iff] using hmem
  simp only [dashSet, List.mem_cons, List.not_mem_nil, or_false] at hsm
  rcases hsm with h | h | h | h | h | h | h <;>
    (rw [h] at hhd; have h3 := Option.some.inj hhd; rw [← h3] at hdig;
     exact absurd hdig (by decide))

end AuditFlow


namespace AuditFlow

/- The core arithmetic of `Rat` and `Nat.gcd` is `@[irreducible]`, which
blocks elaborator-side evaluation in `decide` (the kernel is unaffected);
make them semireducible inside this block. -/
unseal Rat.add Rat.sub Rat.mul Rat.inv Nat.gcd

/-! ## Evaluation of the numeric parsers on note-shaped tokens -/

lemma takeWhile_all (p : Char → Bool) (l : List Char) (h : ∀ c ∈ l, p c = true) :
    l.takeWhile p = l := by
  induction l with
  | nil => rfl
  | cons a t ih =>
    rw [List.takeWhile_cons, h a (List.mem_cons_self a t)]
    rw [ih (fun c hc => h c (List.mem_cons_of_mem _ hc))]
    rfl

lemma dropWhile_all (p : Char → Bool) (l : List Char) (h : ∀ c ∈ l, p c = true) :
    l.dropWhile p = [] := by
  induction l with
  | nil => rfl
  | cons a t ih =>
    rw [List.dropWhile_cons, h a (List.mem_cons_self a t)]
    simp only [if_true]
    exact ih (fun c hc => h c (List.mem_cons_of_mem _ hc))

lemma takeWhile_append_stop (p : Char → Bool) (d1 : List Char) (x : Char) (d2 : List Char)
    (h1 : ∀ c ∈ d1, p c = true) (hx : p x = false) :
    (d1 ++ x :: d2).takeWhile p = d1 := by
  induction d1 with
  | nil => simp [List.takeWhile_cons, hx]
  | cons a t ih =>
    rw [List.cons_append, List.takeWhile_cons, h1 a (List.mem_cons_self a t)]
    rw [ih (fun c hc => h1 c (List.mem_cons_of_mem _ hc))]
    rfl

lemma dropWhile_append_stop (p : Char → Bool) (d1 : List Char) (x : Char) (d2 : List Char)
    (h1 : ∀ c ∈ d1, p c = true) (hx : p x = false) :
    (d1 ++ x :: d2).dropWhile p = x :: d2 := by
  induction d1 with
  | nil => simp [List.dropWhile_cons, hx]
  | cons a t ih =>
    rw [List.cons_append, List.dropWhile_cons, h1 a (List.mem_cons_self a t)]
    simp only [if_true]
    exact ih (fun c hc => h1 c (List.mem_cons_of_mem _ hc))

lemma parseMantissa_note (d1 d2 : List Char)
    (hd1 : d1 ≠ []) (hall1 : ∀ c ∈ d1, isDig c = true) (hall2 : ∀ c ∈ d2, isDig c = true) :
    parseMantissa (d1 ++ '.' :: d2) = some (noteVal d1 d2) := by
  unfold parseMantissa
  rw [dropWhile_append_stop isDig d1 '.' d2 hall1 (by decide)]
  simp only
  rw [takeWhile_append_stop isDig d1 '.' d2 hall1 (by decide)]
  rw [takeWhile_all isDig d2 hall2, dropWhile_all isDig d2 hall2]
  rw [if_neg]
  · rfl
  · intro hcon
    simp only [Bool.and_eq_true, List.isEmpty_iff] at hcon
    exact hd1 hcon.1

lemma noteVal_nonneg (d1 d2 : List Char) : 0 ≤ noteVal d1 d2 := by
  unfold noteVal
  have h1 : (0 : ℚ) ≤ (digitsToNat d1 : ℚ) := Nat.cast_nonneg _
  have h2 : (0 : ℚ) ≤ (digitsToNat d2 : ℚ) / (10 : ℚ) ^ d2.length :=
    div_nonneg (Nat.cast_nonneg _) (pow_nonneg (by norm_num) _)
  exact add_nonneg h1 h2

lemma pyFloatQ_eq_parseMantissa_of_note (s : String) (hnote : noteMatch s = true) :
    pyFloatQ s = parseMantissa s.data := by
  obtain ⟨hne, hall, ⟨ch, hh, hhd⟩, ⟨cl, hl, hld⟩⟩ := noteMatch_chars s hnote
  have hstrip : pyStrip s = s :=
    pyStrip_eq_self_of_ends s ch cl hh (isDig_not_pyWS _ hhd) hl (isDig_not_pyWS _ hld)
  cases hdata : s.data with
  | nil => exact absurd hdata hne
  | cons c rest =>
    have hcd : ch = c := by
      rw [hdata] at hh
      exact Option.some.inj hh.symm
    rw [← hcd] at hdata
    have hplus : (ch == '+') = false := by
      simp only [beq_eq_false_iff_ne, ne_eq]
      exact isDig_ne ch '+' hhd (by decide)
    have hminus : (ch == '-') = false := by
      simp only [beq_eq_false_iff_ne, ne_eq]
      exact isDig_ne ch '-' hhd (by decide)
    simp only [pyFloatQ, hstrip, hdata, hplus, hminus, Bool.false_eq_true, if_false]
    rw [hcd]

lemma pyFloatQ_note (s : String) (hnote : noteMatch s = true) :
    ∃ d1 d2 : List Char, s.data = d1 ++ '.' :: d2 ∧
      pyFloatQ s = some (noteVal d1 d2) := by
  obtain ⟨d1, d2, hsplit, hd1, hd2, hall1, hall2⟩ := noteMatch_decomp s hnote
  refine ⟨d1, d2, hsplit, ?_⟩
  rw [pyFloatQ_eq_parseMantissa_of_note s hnote, hsplit]
  exact parseMantissa_note d1 d2 hd1 hall1 hall2

end AuditFlow

namespace AuditFlow

/- The core arithmetic of `Rat` and `Nat.gcd` is `@[irreducible]`, which
blocks elaborator-side evaluation in `decide` (the kernel is unaffected);
make them semireducible inside this block. -/
unseal Rat.add Rat.sub Rat.mul Rat.inv Nat.gcd

lemma ratRepr_ne_empty (q : ℚ) : ratRepr q ≠ "" := by
  intro h
  have hd := congrArg String.data h
  simp only [ratRepr] at hd
  by_cases hq : q < 0
  · rw [if_pos hq] at hd
    exact List.cons_ne_nil _ _ hd
  · rw [if_neg hq] at hd
    have : natDigitChars (if q < 0 then -q else q).floor.toNat ++
        '.' :: (if (fracDigits ((if q < 0 then -q else q) -
          ((if q < 0 then -q else q).floor : ℚ)) 40).isEmpty then ['0']
          else fracDigits ((if q < 0 then -q else q) -
            ((if q < 0 then -q else q).floor : ℚ)) 40) ≠ [] :=
      List.append_ne_nil_of_right_ne_nil _ (List.cons_ne_nil _ _)
    exact this hd

lemma toNum_note (s : String) (q : ℚ) (hnote : noteMatch s = true)
    (hq : pyFloatQ s = some q) :
    toNum s = if |q| < 20 then none else some q := by
  obtain ⟨hne, hall, ⟨ch, hh, hhd⟩, ⟨cl, hl, hld⟩⟩ := noteMatch_chars s hnote
  have hrm : chRemove ',' s = s :=
    chRemove_eq_self ',' s (fun c hc => digDot_ne_comma c (hall c hc))
  have hstrip : pyStrip s = s :=
    pyStrip_eq_self_of_ends s ch cl hh (isDig_not_pyWS _ hhd) hl (isDig_not_pyWS _ hld)
  have hhead : headIs s '(' = false :=
    headIs_false_of s '(' ch hh (isDig_ne ch '(' hhd (by decide))
  simp only [toNum, hrm, hstrip, hhead, Bool.false_and, Bool.false_eq_true, if_false, hq,
    hnote, Bool.true_and]
  by_cases hlt : |q| < 20
  · simp [hlt]
  · simp [hlt]

lemma isNum_note (s : String) (q : ℚ) (hnote : noteMatch s = true)
    (hq : pyFloatQ s = some q) :
    isNum s = !(decide (|q| < 20)) := by
  obtain ⟨hne, hall, ⟨ch, hh, hhd⟩, ⟨cl, hl, hld⟩⟩ := noteMatch_chars s hnote
  have hrm : chRemove ',' s = s :=
    chRemove_eq_self ',' s (fun c hc => digDot_ne_comma c (hall c hc))
  have hrmsp : chRemove ' ' s = s :=
    chRemove_eq_self ' ' s (fun c hc => digDot_ne_space c (hall c hc))
  have hstrip : pyStrip s = s :=
    pyStrip_eq_self_of_ends s ch cl hh (isDig_not_pyWS _ hhd) hl (isDig_not_pyWS _ hld)
  have hhead : headIs s '(' = false :=
    headIs_false_of s '(' ch hh (isDig_ne ch '(' hhd (by decide))
  have hbe : (s == "") = false := beq_empty_false_of_data s hne
  simp only [isNum, hrm, hrmsp, hstrip, hhead, Bool.false_and, Bool.false_eq_true, if_false,
    hbe, hq, hnote, Bool.true_and]

lemma toFloatStr_note (s : String) (q : ℚ) (hnote : noteMatch s = true)
    (hq : pyFloatQ s = some q) :
    toFloatStr s = if |q| < 20 then "" else ratRepr q := by
  obtain ⟨hne, hall, ⟨ch, hh, hhd⟩, ⟨cl, hl, hld⟩⟩ := noteMatch_chars s hnote
  have hcc : cleanCell (some s) = s :=
    cleanCell_eq_self_of_digDot s hne hall ⟨ch, hh, hhd⟩
  have hrm : chRemove ',' s = s :=
    chRemove_eq_self ',' s (fun c hc => digDot_ne_comma c (hall c hc))
  have hstrip : pyStrip s = s :=
    pyStrip_eq_self_of_ends s ch cl hh (isDig_not_pyWS _ hhd) hl (isDig_not_pyWS _ hld)
  have hdw : s.data.dropWhile isCurrencyOrWS = s.data := by
    apply dropWhile_eq_self_of_head
    intro c hc
    rw [hh] at hc
    cases hc
    exact isDig_not_curWS _ hhd
  have hhead : headIs s '(' = false :=
    headIs_false_of s '(' ch hh (isDig_ne ch '(' hhd (by decide))
  have hpre : toFloatStrPre s = s := by
    simp only [toFloatStrPre, hcc, hrm, hstrip, hdw, strMk_data, hhead, Bool.false_and,
      Bool.false_eq_true, if_false]
  unfold toFloatStr
  rw [hpre]
  by_cases hlt : |q| < 20
  · have hdec : decide (|q| < 20) = true := decide_eq_true hlt
    simp only [hnote, hq, hdec, if_true, if_pos hlt]
  · have hdec : decide (|q| < 20) = false := decide_eq_false hlt
    simp only [hnote, hq, hdec, Bool.false_eq_true, if_false, if_true, if_neg hlt]

end AuditFlow

namespace AuditFlow

/- The core arithmetic of `Rat` and `Nat.gcd` is `@[irreducible]`, which
blocks elaborator-side evaluation in `decide` (the kernel is unaffected);
make them semireducible inside this block. -/
unseal Rat.add Rat.sub Rat.mul Rat.inv Nat.gcd

set_option maxRecDepth 40000

/-- C7 (amended): the note-reference heuristic lives in the PDF-extraction
parsers: for every bare token of shape `N.N` (the `_NOTE_RE` pattern) whose
value has magnitude under 20, `_to_num` returns `None`, `_to_float_str`
returns `""` and `_is_num` returns `False`; with magnitude 20 or more the
token parses to its numeric value.  (`validation_utils.parse_number` applies
no such filter — see the counterexample.) -/
theorem claim_C7_amended (s : String) (q : ℚ) (hnote : noteMatch s = true)
    (hq : pyFloatQ s = some q) :
    (|q| < 20 → toNum s = none ∧ toFloatStr s = "" ∧ isNum s = false) ∧
    (20 ≤ |q| → toNum s = some q ∧ toFloatStr s = ratRepr q ∧ isNum s = true) := by
  constructor
  · intro hlt
    refine ⟨?_, ?_, ?_⟩
    · rw [toNum_note s q hnote hq, if_pos hlt]
    · rw [toFloatStr_note s q hnote hq, if_pos hlt]
    · rw [isNum_note s q hnote hq, decide_eq_true hlt]
      rfl
  · intro hge
    have hlt : ¬ |q| < 20 := not_lt.mpr hge
    refine ⟨?_, ?_, ?_⟩
    · rw [toNum_note s q hnote hq, if_neg hlt]
    · rw [toFloatStr_note s q hnote hq, if_neg hlt]
    · rw [isNum_note s q hnote hq, decide_eq_false hlt]
      rfl

/-- C7 counterexample: `parse_number` of `validation_utils.py` applies no
note-reference filter: the bare token `"1.5"` (shape `N.N`, magnitude `< 20`)
parses to `1.5` instead of null. -/
theorem claim_C7_cex : parseNumber "1.5" = some ((3 : ℚ) / 2) := by
  decide

theorem claim_C7_witness :
    (noteMatch "1.5" = true ∧ pyFloatQ "1.5" = some ((3 : ℚ) / 2) ∧ |(3 : ℚ) / 2| < 20 ∧
      (toNum "1.5" = none ∧ toFloatStr "1.5" = "" ∧ isNum "1.5" = false)) ∧
    (noteMatch "25.5" = true ∧ pyFloatQ "25.5" = some ((51 : ℚ) / 2) ∧ 20 ≤ |(51 : ℚ) / 2| ∧
      (toNum "25.5" = some ((51 : ℚ) / 2) ∧ toFloatStr "25.5" = ratRepr ((51 : ℚ) / 2) ∧
        isNum "25.5" = true)) := by
  constructor
  · refine ⟨by decide, by decide, by decide, ?_⟩
    exact (claim_C7_amended "1.5" ((3 : ℚ) / 2) (by decide)
      (by decide)).1 (by decide)
  · refine ⟨by decide, by decide, by decide, ?_⟩
    exact (claim_C7_amended "25.5" ((51 : ℚ) / 2) (by decide)
      (by decide)).2 (by decide)

/-- C8: the numeric parser's spec examples: `parse_number("(1,234.50)")` is
`-1234.50` (parenthesis means negative, thousands separator stripped);
`parse_number("—")` is null; and the label token `"FY 2024"` is never treated
as numeric on the extraction path (`_is_num` rejects it, so it can never be
assigned to a value cell, and `_to_num` returns `None` on it). -/
theorem claim_C8 :
    parseNumber "(1,234.50)" = some (-((2469 : ℚ) / 2)) ∧
    parseNumber "—" = none ∧
    isNum "FY 2024" = false ∧ toNum "FY 2024" = none := by
  refine ⟨by decide, by decide,
    by decide, by decide⟩

end AuditFlow

namespace AuditFlow

/- The core arithmetic of `Rat` and `Nat.gcd` is `@[irreducible]`, which
blocks elaborator-side evaluation in `decide` (the kernel is unaffected);
make them semireducible inside this block. -/
unseal Rat.add Rat.sub Rat.mul Rat.inv Nat.gcd

/-! ## The parenthesized note-shaped token `(N.N)` -/

lemma paren_data (t : String) : ("(" ++ t ++ ")").data = '(' :: (t.data ++ [')']) := by
  cases t
  rfl

lemma neg_data (t : String) : ("-" ++ t).data = '-' :: t.data := by
  cases t
  rfl

lemma paren_mem (t : String) (c : Char) (hc : c ∈ ("(" ++ t ++ ")").data)
    (hall : ∀ c ∈ t.data, digDot c) : c = '(' ∨ c = ')' ∨ digDot c := by
  rw [paren_data] at hc
  rcases List.mem_cons.mp hc with h | h
  · exact Or.inl h
  · rcases List.mem_append.mp h with h | h
    · exact Or.inr (Or.inr (hall c h))
    · rcases List.mem_cons.mp h with h | h
      · exact Or.inr (Or.inl h)
      · exact absurd h (List.not_mem_nil c)

lemma paren_head (t : String) : ("(" ++ t ++ ")").data.head? = some '(' := by
  rw [paren_data]
  rfl

lemma paren_last (t : String) : ("(" ++ t ++ ")").data.getLast? = some ')' := by
  rw [paren_data, show ('(' :: (t.data ++ [')'])) = ('(' :: t.data) ++ [')'] from by simp]
  exact List.getLast?_concat _

lemma paren_stripEnds (t : String) : stripEnds ("(" ++ t ++ ")") = t := by
  unfold stripEnds
  rw [paren_data]
  simp only [List.drop_succ_cons, List.drop_zero, List.dropLast_concat]

lemma paren_headIs (t : String) : headIs ("(" ++ t ++ ")") '(' = true := by
  unfold headIs
  rw [paren_head]
  rfl

lemma paren_lastIs (t : String) : lastIs ("(" ++ t ++ ")") ')' = true := by
  unfold lastIs
  rw [paren_last]
  rfl

/-- The token characters of `(N.N)` survive comma removal, space removal,
stripping, and the currency prefix strip. -/
lemma paren_clean (t : String) (hall : ∀ c ∈ t.data, digDot c) :
    chRemove ',' ("(" ++ t ++ ")") = "(" ++ t ++ ")" ∧
    chRemove ' ' ("(" ++ t ++ ")") = "(" ++ t ++ ")" ∧
    pyStrip ("(" ++ t ++ ")") = "(" ++ t ++ ")" ∧
    cleanCell (some ("(" ++ t ++ ")")) = "(" ++ t ++ ")" ∧
    ("(" ++ t ++ ")").data.dropWhile isCurrencyOrWS = ("(" ++ t ++ ")").data := by
  have hmem : ∀ c ∈ ("(" ++ t ++ ")").data, c = '(' ∨ c = ')' ∨ digDot c :=
    fun c hc => paren_mem t c hc hall
  have hnc : ∀ c ∈ ("(" ++ t ++ ")").data, c ≠ ',' := by
    intro c hc
    rcases hmem c hc with h | h | h
    · subst h; decide
    · subst h; decide
    · exact digDot_ne_comma c h
  have hns : ∀ c ∈ ("(" ++ t ++ ")").data, c ≠ ' ' := by
    intro c hc
    rcases hmem c hc with h | h | h
    · subst h; decide
    · subst h; decide
    · exact digDot_ne_space c h
  have hnw : ∀ c ∈ ("(" ++ t ++ ")").data, isPyWS c = false := by
    intro c hc
    rcases hmem c hc with h | h | h
    · subst h; decide
    · subst h; decide
    · exact digDot_not_pyWS c h
  have hstrip : pyStrip ("(" ++ t ++ ")") = "(" ++ t ++ ")" := by
    apply pyStrip_eq_self
    · intro c hc
      rw [paren_head] at hc
      cases hc
      decide
    · intro c hc
      rw [paren_last] at hc
      cases hc
      decide
  refine ⟨chRemove_eq_self _ _ hnc, chRemove_eq_self _ _ hns, hstrip, ?_, ?_⟩
  · have hrep : chReplace '\n' ' ' ("(" ++ t ++ ")") = "(" ++ t ++ ")" := by
      apply chReplace_eq_self
      intro c hc
      rcases hmem c hc with h | h | h
      · subst h; decide
      · subst h; decide
      · exact digDot_ne_nl c h
    have hcol : collapseWS ("(" ++ t ++ ")") = "(" ++ t ++ ")" :=
      collapseWS_eq_self _ hnw
    simp only [cleanCell, hrep, hcol, hstrip]
    rw [if_neg]
    intro hmemd
    have hsm : ("(" ++ t ++ ")") ∈ dashSet := by
      simpa [List.contains, List.elem_iff] using hmemd
    simp only [dashSet, List.mem_cons, List.not_mem_nil, or_false] at hsm
    rcases hsm with h | h | h | h | h | h | h <;>
      (have h2 := congrArg String.data h;
       rw [paren_data] at h2; cases h2)
  · apply dropWhile_eq_self_of_head
    intro c hc
    rw [paren_head] at hc
    cases hc
    decide

end AuditFlow

namespace AuditFlow

/- The core arithmetic of `Rat` and `Nat.gcd` is `@[irreducible]`, which
blocks elaborator-side evaluation in `decide` (the kernel is unaffected);
make them semireducible inside this block. -/
unseal Rat.add Rat.sub Rat.mul Rat.inv Nat.gcd

lemma noteMatch_neg (t : String) : noteMatch ("-" ++ t) = false := by
  unfold noteMatch
  rw [neg_data, List.dropWhile_cons]
  rw [show isDig '-' = false from by decide]
  simp

lemma pyFloatQ_neg_note (t : String) (q : ℚ) (hnote : noteMatch t = true)
    (hq : pyFloatQ t = some q) : pyFloatQ ("-" ++ t) = some (-q) := by
  obtain ⟨hne, hall, ⟨ch, hh, hhd⟩, ⟨cl, hl, hld⟩⟩ := noteMatch_chars t hnote
  have hstrip : pyStrip ("-" ++ t) = "-" ++ t := by
    apply pyStrip_eq_self
    · intro c hc
      rw [neg_data] at hc
      cases hc
      decide
    · intro c hc
      rw [neg_data] at hc
      cases hdata : t.data with
      | nil => exact absurd hdata hne
      | cons a r =>
        rw [hdata, List.getLast?_cons_cons] at hc
        have hmem := List.mem_of_mem_getLast? hc
        exact digDot_not_pyWS c (hall c (by rw [hdata]; exact hmem))
  unfold pyFloatQ
  rw [hstrip, neg_data]
  simp only [show ('-' == '+') = false from by decide, Bool.false_eq_true, if_false,
    show ('-' == '-') = true from by decide, if_true]
  rw [← pyFloatQ_eq_parseMantissa_of_note t hnote, hq]
  rfl

/-- C9: the note-reference heuristic is not applied to parenthesized tokens:
for every `(N.N)` whose inner value `q` has magnitude under 20, `_to_num`
returns `-q` and `_to_float_str` returns its (non-empty) string form, even
though the bare token is rejected (`_to_num` returns `None` on it); `_is_num`
rejects the parenthesized token, so `_is_num` and `_to_num` disagree on it. -/
theorem claim_C9 (t : String) (q : ℚ) (hnote : noteMatch t = true)
    (hq : pyFloatQ t = some q) (hlt : |q| < 20) :
    toNum ("(" ++ t ++ ")") = some (-q) ∧
    isNum ("(" ++ t ++ ")") = false ∧
    toFloatStr ("(" ++ t ++ ")") = ratRepr (-q) ∧
    toFloatStr ("(" ++ t ++ ")") ≠ "" ∧
    toNum t = none := by
  obtain ⟨hne, hall, ⟨ch, hh, hhd⟩, ⟨cl, hl, hld⟩⟩ := noteMatch_chars t hnote
  obtain ⟨hrc, hrs, hstrip, hcc, hdw⟩ := paren_clean t hall
  have hqn : 0 ≤ q := by
    obtain ⟨d1, d2, hsplit, hqv⟩ := pyFloatQ_note t hnote
    rw [hqv] at hq
    rw [← Option.some.inj hq]
    exact noteVal_nonneg d1 d2
  have habs : |q| = q := abs_of_nonneg hqn
  constructor
  · unfold toNum
    simp only
    rw [hrc, hstrip, paren_headIs, paren_lastIs]
    simp only [Bool.and_self, if_true, paren_stripEnds, hq]
    rw [habs]
  constructor
  · unfold isNum
    simp only
    rw [hrc, hrs, hstrip, paren_headIs, paren_lastIs]
    simp only [Bool.and_self, if_true, paren_stripEnds]
    rw [beq_empty_false_of_data t hne]
    simp only [Bool.false_eq_true, if_false, hq, hnote, Bool.true_and]
    rw [decide_eq_true hlt]
    rfl
  have hpre : toFloatStrPre ("(" ++ t ++ ")") = "-" ++ t := by
    unfold toFloatStrPre
    simp only
    rw [hcc, hrc, hstrip, hdw, strMk_data, hstrip, paren_headIs, paren_lastIs]
    simp only [Bool.and_self, if_true, paren_stripEnds]
  have hfs : toFloatStr ("(" ++ t ++ ")") = ratRepr (-q) := by
    unfold toFloatStr
    rw [hpre]
    simp only
    rw [noteMatch_neg t]
    simp only [Bool.false_eq_true, if_false, pyFloatQ_neg_note t q hnote hq]
  refine ⟨hfs, ?_, ?_⟩
  · rw [hfs]
    exact ratRepr_ne_empty (-q)
  · rw [toNum_note t q hnote hq, if_pos hlt]

theorem claim_C9_witness :
    (noteMatch "1.5" = true ∧ pyFloatQ "1.5" = some ((3 : ℚ) / 2) ∧ |(3 : ℚ) / 2| < 20) ∧
    (toNum "(1.5)" = some (-((3 : ℚ) / 2)) ∧ isNum "(1.5)" = false ∧
      toFloatStr "(1.5)" = ratRepr (-((3 : ℚ) / 2)) ∧ toFloatStr "(1.5)" ≠ "" ∧
      toNum "1.5" = none) := by
  constructor
  · exact ⟨by decide, by decide, by decide⟩
  · exact claim_C9 "1.5" ((3 : ℚ) / 2) (by decide) (by decide)
      (by decide)

end AuditFlow

namespace AuditFlow

/- The core arithmetic of `Rat` and `Nat.gcd` is `@[irreducible]`, which
blocks elaborator-side evaluation in `decide` (the kernel is unaffected);
make them semireducible inside this block. -/
unseal Rat.add Rat.sub Rat.mul Rat.inv Nat.gcd

/-! ## Row-width invariants of the text-path extractor -/

lemma rowVals_length (validCols : List Nat) (trow : List (Option String)) (numH : Nat) :
    (rowVals validCols trow numH).length = numH := by
  unfold rowVals
  have hge : ∀ (vals : List String),
      numH ≤ (validCols.foldl (fun (vals : List String) ci =>
        if numH ≤ vals.length then vals
        else vals ++ [toFloatStr (cleanCell (some ((trow.getD ci none).getD "")))]) vals).length +
        (numH - (validCols.foldl (fun (vals : List String) ci =>
        if numH ≤ vals.length then vals
        else vals ++ [toFloatStr (cleanCell (some ((trow.getD ci none).getD "")))]) vals).length) := by
    intro vals
    omega
  rw [List.length_take, List.length_append, List.length_replicate]
  omega

lemma processDataRow_hdrs (numH : Nat) (st : TES) (trow : List (Option String)) :
    (processDataRow numH st trow).foundHdrs = st.foundHdrs ∧
    (processDataRow numH st trow).validCols = st.validCols := by
  unfold processDataRow
  simp only
  split
  · exact ⟨rfl, rfl⟩
  · split
    · exact ⟨rfl, rfl⟩
    · split
      · exact ⟨rfl, rfl⟩
      · split
        · exact ⟨rfl, rfl⟩
        · exact ⟨rfl, rfl⟩

lemma processDataRow_rows (numH : Nat) (st : TES) (trow : List (Option String)) :
    ∀ r ∈ (processDataRow numH st trow).allRows,
      r ∈ st.allRows ∨ r.values.length = numH := by
  intro r hr
  unfold processDataRow at hr
  simp only at hr
  split at hr
  · exact Or.inl hr
  · split at hr
    · exact Or.inl hr
    · split at hr
      · exact Or.inl hr
      · split at hr
        · exact Or.inl hr
        · simp only [List.mem_append, List.mem_singleton] at hr
          rcases hr with hr | hr
          · exact Or.inl hr
          · subst hr
            exact Or.inr (rowVals_length _ _ _)

lemma foldDataRows_inv (numH : Nat) (trows : List (List (Option String))) :
    ∀ st : TES,
    (trows.foldl (processDataRow numH) st).foundHdrs = st.foundHdrs ∧
    ∀ r ∈ (trows.foldl (processDataRow numH) st).allRows,
      r ∈ st.allRows ∨ r.values.length = numH := by
  induction trows with
  | nil => intro st; exact ⟨rfl, fun r hr => Or.inl hr⟩
  | cons t rest ih =>
    intro st
    rw [List.foldl_cons]
    obtain ⟨ih1, ih2⟩ := ih (processDataRow numH st t)
    constructor
    · rw [ih1, (processDataRow_hdrs numH st t).1]
    · intro r hr
      rcases ih2 r hr with hmem | hlen
      · exact processDataRow_rows numH st t r hmem
      · exact Or.inr hlen

end AuditFlow

namespace AuditFlow

/- The core arithmetic of `Rat` and `Nat.gcd` is `@[irreducible]`, which
blocks elaborator-side evaluation in `decide` (the kernel is unaffected);
make them semireducible inside this block. -/
unseal Rat.add Rat.sub Rat.mul Rat.inv Nat.gcd

lemma processTable_single (tbl : List (List (Option String))) (ti : Nat)
    (htlen : 3 < tbl.length) (hti : findHdrIdx tbl = some ti)
    (hhdr : (parseTextHeaders (tbl.getD ti [])).1 ≠ []) :
    (processTable ⟨[], [], [], "OTHER"⟩ tbl).foundHdrs =
      (parseTextHeaders (tbl.getD ti [])).1 ∧
    ∀ r ∈ (processTable ⟨[], [], [], "OTHER"⟩ tbl).allRows,
      r.values.length = (parseTextHeaders (tbl.getD ti [])).1.length := by
  have h2 : ¬ tbl.length < 2 := by omega
  have hie : (parseTextHeaders (tbl.getD ti [])).1.isEmpty = false :=
    List.isEmpty_eq_false.mpr hhdr
  have hpos : (0 : Nat) < (parseTextHeaders (tbl.getD ti [])).1.length :=
    List.length_pos.mpr hhdr
  unfold processTable
  rw [if_neg h2, hti]
  simp only [decide_True, hie, Bool.not_false, Bool.true_and, List.length_nil, hpos,
    decide_eq_true hpos, if_true, Bool.false_eq_true, if_false]
  obtain ⟨hfold1, hfold2⟩ :=
    foldDataRows_inv (parseTextHeaders (tbl.getD ti [])).1.length (tbl.drop (ti + 1))
      ⟨(parseTextHeaders (tbl.getD ti [])).1,
        if (parseTextHeaders (tbl.getD ti [])).2.isEmpty then
          List.range' 1 ((tbl.getD ti []).length - 1)
        else (parseTextHeaders (tbl.getD ti [])).2, [], "OTHER"⟩
  constructor
  · exact hfold1
  · intro r hr
    rcases hfold2 r hr with hmem | hlen
    · exact absurd hmem (List.not_mem_nil r)
    · exact hlen

end AuditFlow

namespace AuditFlow

/- The core arithmetic of `Rat` and `Nat.gcd` is `@[irreducible]`, which
blocks elaborator-side evaluation in `decide` (the kernel is unaffected);
make them semireducible inside this block. -/
unseal Rat.add Rat.sub Rat.mul Rat.inv Nat.gcd

set_option maxRecDepth 100000

/-- C1 (amended): row values are padded/truncated to the header count in
effect when the row is built, so the alignment `len(row.values) ==
len(year_headers)` holds whenever a single header set is in effect — e.g. a
text-layer document with a single accepted table whose parsed headers (at
most 8 of them) are found before its data rows.  Across batches with
different column counts the row widths and the final header count can
diverge (see the counterexample). -/
theorem claim_C1_amended (tbl : List (List (Option String))) (fullText : String)
    (ocrR : ExtractionResult) (ti : Nat)
    (htlen : 3 < tbl.length)
    (hti : findHdrIdx tbl = some ti)
    (hhdr : (parseTextHeaders (tbl.getD ti [])).1 ≠ [])
    (hlen8 : (parseTextHeaders (tbl.getD ti [])).1.length ≤ 8)
    (hrows : 5 ≤ (textExtract [⟨[tbl], [], []⟩] fullText).rows.length) :
    ∀ r ∈ (extractTableStructure none true (textExtract [⟨[tbl], [], []⟩] fullText) ocrR).rows,
      r.values.length =
      (extractTableStructure none true (textExtract [⟨[tbl], [], []⟩] fullText) ocrR).year_headers.length := by
  have hsel : selectTables ⟨[tbl], [], []⟩ = [tbl] := by
    unfold selectTables
    simp only [List.isEmpty_cons, Bool.not_false, Bool.true_and, List.any_cons, List.any_nil,
      Bool.or_false, decide_eq_true htlen, if_true, Bool.false_eq_true, if_false]
  have htx : textExtract [⟨[tbl], [], []⟩] fullText =
      ⟨(processTable ⟨[], [], [], "OTHER"⟩ tbl).foundHdrs.take 8,
        (processTable ⟨[], [], [], "OTHER"⟩ tbl).allRows,
        (detectUnitFromText fullText).getD "", none⟩ := by
    unfold textExtract
    rw [List.foldl_cons, List.foldl_nil, hsel, List.foldl_cons, List.foldl_nil]
  obtain ⟨hhdrs, hwidths⟩ := processTable_single tbl ti htlen hti hhdr
  have htake : (processTable ⟨[], [], [], "OTHER"⟩ tbl).foundHdrs.take 8 =
      (parseTextHeaders (tbl.getD ti [])).1 := by
    rw [hhdrs]
    exact List.take_of_length_le hlen8
  intro r hr
  have hnotlt : ¬ (textExtract [⟨[tbl], [], []⟩] fullText).rows.length < 5 := by omega
  have hext : extractTableStructure none true (textExtract [⟨[tbl], [], []⟩] fullText) ocrR =
      finalizeResult (textExtract [⟨[tbl], [], []⟩] fullText) := by
    unfold extractTableStructure selectPath
    rw [if_pos rfl, if_neg hnotlt]
  rw [hext] at hr ⊢
  have hhne : (textExtract [⟨[tbl], [], []⟩] fullText).year_headers.isEmpty = false := by
    rw [htx]
    simp only
    rw [htake]
    exact List.isEmpty_eq_false.mpr hhdr
  have hyh : (finalizeResult (textExtract [⟨[tbl], [], []⟩] fullText)).year_headers =
      (parseTextHeaders (tbl.getD ti [])).1 := by
    unfold finalizeResult
    rw [hhne]
    simp only [Bool.false_eq_true, if_false]
    rw [htx]
    exact htake
  rw [hyh]
  have hrows' : (finalizeResult (textExtract [⟨[tbl], [], []⟩] fullText)).rows =
      dedupeGo [] [] (textExtract [⟨[tbl], [], []⟩] fullText).rows := rfl
  rw [hrows'] at hr
  have hmem := (dedupeGo_mem _ [] r hr).1
  rw [htx] at hmem
  simp only at hmem
  exact hwidths r hmem

end AuditFlow

namespace AuditFlow

/- The core arithmetic of `Rat` and `Nat.gcd` is `@[irreducible]`, which
blocks elaborator-side evaluation in `decide` (the kernel is unaffected);
make them semireducible inside this block. -/
unseal Rat.add Rat.sub Rat.mul Rat.inv Nat.gcd

set_option maxRecDepth 100000

/-- C1 counterexample: a text-layer page carrying two tables — one whose
header cells are all skip-column labels (its rows get the default width 5),
one with two parsed year headers — produces a returned result whose
`year_headers` has 2 entries while four of its rows carry 5 values. -/
theorem claim_C1_cex :
    (extractTableStructure none true (textExtract [pageMixed] "") blankResult).year_headers.length = 2 ∧
    (extractTableStructure none true (textExtract [pageMixed] "") blankResult).rows.map
      (fun r => r.values.length) = [5, 5, 5, 5, 2] :=
  ⟨rfl, rfl⟩

theorem claim_C1_witness :
    (3 < tblUniform.length ∧ findHdrIdx tblUniform = some 0 ∧
      (parseTextHeaders (tblUniform.getD 0 [])).1 ≠ [] ∧
      (parseTextHeaders (tblUniform.getD 0 [])).1.length ≤ 8 ∧
      5 ≤ (textExtract [⟨[tblUniform], [], []⟩] "").rows.length) ∧
    ∀ r ∈ (extractTableStructure none true (textExtract [⟨[tblUniform], [], []⟩] "") blankResult).rows,
      r.values.length =
      (extractTableStructure none true (textExtract [⟨[tblUniform], [], []⟩] "") blankResult).year_headers.length := by
  refine ⟨⟨by decide, by decide, by decide, by decide, by decide⟩, ?_⟩
  exact claim_C1_amended tblUniform "" blankResult 0 (by decide) (by decide) (by decide)
    (by decide) (by decide)

theorem claim_C3_witness :
    (∀ r ∈ (blankResult.rows ++ (ExtractionResult.mk ["FY 2024"]
        [⟨"Total Income", ["1.0"], 0, "REVENUE", false⟩,
         ⟨"TOTAL INCOME", ["2.0"], 0, "REVENUE", false⟩,
         ⟨"Other income", ["3.0"], 0, "REVENUE", false⟩] "" none).rows),
      wsClean r.item = true) ∧
    ((((extractTableStructure none false blankResult ⟨["FY 2024"],
        [⟨"Total Income", ["1.0"], 0, "REVENUE", false⟩,
         ⟨"TOTAL INCOME", ["2.0"], 0, "REVENUE", false⟩,
         ⟨"Other income", ["3.0"], 0, "REVENUE", false⟩], "", none⟩).rows.map
        (fun r => normLabel r.item)).Nodup) ∧
      ∀ r ∈ (extractTableStructure none false blankResult ⟨["FY 2024"],
        [⟨"Total Income", ["1.0"], 0, "REVENUE", false⟩,
         ⟨"TOTAL INCOME", ["2.0"], 0, "REVENUE", false⟩,
         ⟨"Other income", ["3.0"], 0, "REVENUE", false⟩], "", none⟩).rows,
        (selectPath false blankResult ⟨["FY 2024"],
          [⟨"Total Income", ["1.0"], 0, "REVENUE", false⟩,
           ⟨"TOTAL INCOME", ["2.0"], 0, "REVENUE", false⟩,
           ⟨"Other income", ["3.0"], 0, "REVENUE", false⟩], "", none⟩).rows.find?
          (fun x => normLabel x.item == normLabel r.item) = some r) := by
  refine ⟨by decide, ?_⟩
  exact claim_C3 false blankResult ⟨["FY 2024"],
    [⟨"Total Income", ["1.0"], 0, "REVENUE", false⟩,
     ⟨"TOTAL INCOME", ["2.0"], 0, "REVENUE", false⟩,
     ⟨"Other income", ["3.0"], 0, "REVENUE", false⟩], "", none⟩ (by decide)

end AuditFlow
